import Mathlib

/-!
# Verification of the race-results ingestion pipeline of `strava_visualizer`

Shallow embedding, in Lean, of the ingestion pipeline of the repository:

* `src/import-csilo-2025.js` — the PDF-text section parser (`parseTime`,
  `parsePDF`, `buildFinishers`, `insertRace`);
* `src/server/sporthive.js` — the Sporthive adapter (`fetchAllFinishers`,
  `fmtTime`, `importRace`);
* `src/server/raceresult.js` — the RaceResult adapter (`parseTimeToSeconds`,
  `extractFinishers`, `importRaceResult`).

JavaScript strings are embedded as `List Char`; machine numbers as `Int`/`Nat`
(all values the pipeline computes with are integers); JSON cell values as the
inductive `JVal`; the PostgreSQL tables `race_events` / `race_finishers` as
lists of rows inside an explicit `DB` state, with the `SERIAL` primary key
modelled by a `nextId` counter.  Network fetches are modelled by passing the
fetched/extracted record list as an explicit argument to the import
functions, which embed everything the source does after the fetch.

JS `Number(...)` coercion is embedded on the integer-numeral fragment
(optional sign, decimal digits, surrounding whitespace, empty string ↦ 0);
float, hexadecimal and exponent numerals do not occur in race-time data and
are out of scope — universally quantified theorems below only classify a
string as non-numeric when it is non-numeric under full JS semantics as well
(purely alphabetic parts other than `Infinity`).
-/

namespace StravaViz

abbrev Chars := List Char

/-- ASCII whitespace as trimmed by `String.prototype.trim` on the inputs this
pipeline handles (space, tab, LF, CR). -/
def isWsCh (c : Char) : Bool := c = ' ' || c = '\t' || c = '\n' || c = '\r'

/-- `'0'..'9'` -/
def isDigitCh (c : Char) : Bool := 48 ≤ c.toNat && c.toNat ≤ 57

/-- `'a'..'z'` or `'A'..'Z'`. -/
def isAlphaCh (c : Char) : Bool :=
  (97 ≤ c.toNat && c.toNat ≤ 122) || (65 ≤ c.toNat && c.toNat ≤ 90)

def allDigits (l : Chars) : Bool := l.all isDigitCh

/-- `str.trim()` -/
def trimChars (l : Chars) : Chars := ((l.dropWhile isWsCh).reverse.dropWhile isWsCh).reverse

/-- `str.split(sep)` for a one-character separator: always returns at least one
(possibly empty) piece, like the JS method. -/
def splitOnChar (c : Char) : Chars → List Chars
  | [] => [[]]
  | x :: xs =>
    if x = c then [] :: splitOnChar c xs
    else
      match splitOnChar c xs with
      | [] => [[x]]
      | h :: t => (x :: h) :: t

/-- Value of a decimal digit character. -/
def digitVal (c : Char) : Nat := c.toNat - 48

/-- Value of a string of decimal digits (the core of JS `Number` / `parseInt`
on digit strings). -/
def decVal (l : Chars) : Nat := l.foldl (fun a c => a * 10 + digitVal c) 0

/-- The character for a decimal digit. -/
def digitChar : Nat → Char
  | 0 => '0' | 1 => '1' | 2 => '2' | 3 => '3' | 4 => '4'
  | 5 => '5' | 6 => '6' | 7 => '7' | 8 => '8' | _ => '9'

/-- Decimal digit characters of a natural number, most significant first
(JS `String(n)` for a non-negative integer). -/
def natToChars (n : Nat) : Chars :=
  if h : n < 10 then [digitChar n]
  else natToChars (n / 10) ++ [digitChar (n % 10)]
decreasing_by exact Nat.div_lt_self (by omega) (by omega)

/-- JS `String(i)` for an integer. -/
def intToChars (i : Int) : Chars :=
  if i < 0 then '-' :: natToChars i.natAbs else natToChars i.toNat

/-- `str.padStart(2, '0')` -/
def padStart2 (l : Chars) : Chars :=
  if l.length < 2 then List.replicate (2 - l.length) '0' ++ l else l

/-- JS `Number(str)`, embedded on the integer-numeral fragment: whitespace is
trimmed, the empty string is `0`, an optional sign followed by decimal digits
is that integer, and everything else is `NaN` (`none`). -/
def jsNum (p : Chars) : Option Int :=
  let t := trimChars p
  if t = [] then some 0
  else if t.head? = some '-' then
    (if t.drop 1 ≠ [] ∧ allDigits (t.drop 1) then some (-(decVal (t.drop 1) : Int)) else none)
  else if t.head? = some '+' then
    (if t.drop 1 ≠ [] ∧ allDigits (t.drop 1) then some ((decVal (t.drop 1) : Int)) else none)
  else if allDigits t then some ((decVal t : Int)) else none

/-- `parseTime` of `src/import-csilo-2025.js` (identical, on strings, to
`parseTimeToSeconds` of `src/server/raceresult.js`): strip a centiseconds
suffix after `','`, trim, split on `':'`, map `Number`; `null` when any part
is `NaN` or there are fewer than two parts; `H:MM:SS` and `MM:SS` forms give
total seconds; any other part count gives `null`.  The JS guard `if (!val)`
is the empty-string case. -/
def parseTime (val : Chars) : Option Int :=
  if val = [] then none
  else
    let clean := trimChars ((splitOnChar ',' val).headD [])
    let parts := (splitOnChar ':' clean).map jsNum
    if parts.any Option.isNone || decide (parts.length < 2) then none
    else
      match parts with
      | [a, b, c] => some (a.getD 0 * 3600 + b.getD 0 * 60 + c.getD 0)
      | [a, b] => some (a.getD 0 * 60 + b.getD 0)
      | _ => none

/-- `fmtTime` of `src/server/sporthive.js` (the copy in
`src/server/raceresult.js` is identical): `null` on `0` (the JS `!s` guard),
otherwise `H:MM:SS` when the hour part is positive, else `M:SS`, with minutes
(in the first form) and seconds zero-padded to two digits.  JS `Math.floor`
division is `Int.fdiv`; JS `%` is `Int.tmod`. -/
def fmtTime (s : Int) : Option Chars :=
  if s = 0 then none
  else
    let h := Int.fdiv s 3600
    let m := Int.fdiv (Int.tmod s 3600) 60
    let sec := Int.tmod s 60
    if 0 < h then
      some (intToChars h ++ ':' :: padStart2 (intToChars m) ++ ':' :: padStart2 (intToChars sec))
    else
      some (intToChars m ++ ':' :: padStart2 (intToChars sec))

/-! ## Basic lemmas about the string utilities -/

theorem splitOnChar_ne_nil (c : Char) (l : Chars) : splitOnChar c l ≠ [] := by
  induction l with
  | nil => simp [splitOnChar]
  | cons x xs ih =>
    simp only [splitOnChar]
    split
    · simp
    · cases h : splitOnChar c xs <;> simp

theorem mem_splitOnChar_subset {c : Char} {l : Chars} {p : Chars}
    (hp : p ∈ splitOnChar c l) : ∀ {x : Char}, x ∈ p → x ∈ l := by
  induction l generalizing p with
  | nil =>
    simp only [splitOnChar, List.mem_singleton] at hp
    subst hp
    intro x hx
    simp at hx
  | cons y ys ih =>
    intro x hx
    simp only [splitOnChar] at hp
    split at hp
    · rcases List.mem_cons.mp hp with h | h
      · subst h; simp at hx
      · exact List.mem_cons_of_mem _ (ih h hx)
    · revert hp
      cases hsp : splitOnChar c ys with
      | nil => exact absurd hsp (splitOnChar_ne_nil c ys)
      | cons q t =>
        intro hp
        rcases List.mem_cons.mp hp with hmem | hmem
        · subst hmem
          rcases List.mem_cons.mp hx with hx' | hx'
          · simp [hx']
          · exact List.mem_cons_of_mem _ (ih (hsp ▸ List.mem_cons_self q t) hx')
        · exact List.mem_cons_of_mem _ (ih (hsp ▸ List.mem_cons_of_mem q hmem) hx)

theorem splitOnChar_eq_single {c : Char} {l : Chars} (h : ∀ x ∈ l, x ≠ c) :
    splitOnChar c l = [l] := by
  induction l with
  | nil => rfl
  | cons x xs ih =>
    have hx : x ≠ c := h x (List.mem_cons_self x xs)
    simp only [splitOnChar, if_neg hx]
    rw [ih (fun y hy => h y (List.mem_cons_of_mem x hy))]

theorem splitOnChar_append {c : Char} {a b : Chars} (h : ∀ x ∈ a, x ≠ c) :
    splitOnChar c (a ++ c :: b) = a :: splitOnChar c b := by
  induction a with
  | nil => simp [splitOnChar]
  | cons x xs ih =>
    have hx : x ≠ c := h x (List.mem_cons_self x xs)
    simp only [List.cons_append, splitOnChar, if_neg hx, List.append_eq]
    rw [ih (fun y hy => h y (List.mem_cons_of_mem x hy))]

theorem dropWhile_eq_self_of {p : Char → Bool} {l : Chars}
    (h : ∀ x ∈ l, p x = false) : l.dropWhile p = l := by
  cases l with
  | nil => rfl
  | cons x xs => simp [List.dropWhile, h x (List.mem_cons_self x xs)]

theorem trimChars_subset (l : Chars) : trimChars l ⊆ l := by
  intro x hx
  unfold trimChars at hx
  rw [List.mem_reverse] at hx
  have h1 := (List.dropWhile_sublist (l := (l.dropWhile isWsCh).reverse) (p := isWsCh)).subset hx
  rw [List.mem_reverse] at h1
  exact (List.dropWhile_sublist (l := l) (p := isWsCh)).subset h1

theorem trimChars_eq_self {l : Chars} (h : ∀ x ∈ l, isWsCh x = false) :
    trimChars l = l := by
  unfold trimChars
  rw [dropWhile_eq_self_of h]
  rw [dropWhile_eq_self_of (fun x hx => h x (List.mem_reverse.mp hx))]
  exact List.reverse_reverse l

/-- An alphabetic character is not whitespace, not a digit, and not a sign. -/
theorem isAlphaCh_props {x : Char} (h : isAlphaCh x = true) :
    isWsCh x = false ∧ isDigitCh x = false ∧ x ≠ '-' ∧ x ≠ '+' := by
  unfold isAlphaCh at h
  simp only [Bool.or_eq_true, Bool.and_eq_true, decide_eq_true_eq] at h
  have hrange : 97 ≤ x.toNat ∧ x.toNat ≤ 122 ∨ 65 ≤ x.toNat ∧ x.toNat ≤ 90 := h
  have hne : ∀ c : Char, x.toNat ≠ c.toNat → x ≠ c := fun c hne heq => hne (heq ▸ rfl)
  refine ⟨?_, ?_, hne '-' (show x.toNat ≠ 45 by omega), hne '+' (show x.toNat ≠ 43 by omega)⟩
  · unfold isWsCh
    have h32 : x ≠ ' ' := hne ' ' (show x.toNat ≠ 32 by omega)
    have h9 : x ≠ '\t' := hne '\t' (show x.toNat ≠ 9 by omega)
    have h10 : x ≠ '\n' := hne '\n' (show x.toNat ≠ 10 by omega)
    have h13 : x ≠ '\r' := hne '\r' (show x.toNat ≠ 13 by omega)
    simp [h32, h9, h10, h13]
  · unfold isDigitCh
    simp only [Bool.and_eq_false_iff, decide_eq_false_iff_not, not_le]
    omega

/-! ## C8: `parseTime` values and rejection of malformed tokens -/

/-- **C8**. `parseTime "1:21:37" = 4897` and `parseTime "21:37" = 1297`; malformed
tokens are unparseable (`none`), never a silent zero: concrete non-numeric and
single-part examples, every string with no `':'` at all (single-part after the
centisecond strip), and every string one of whose colon-separated parts is a
non-empty purely-alphabetic word other than `Infinity` (hence `NaN` under JS
`Number`). -/
theorem c8_parseTime_wellformed_and_malformed :
    parseTime ("1:21:37".data) = some 4897 ∧
    parseTime ("21:37".data) = some 1297 ∧
    parseTime ("1:ab".data) = none ∧
    parseTime ("x7:21".data) = none ∧
    parseTime ("4897".data) = none ∧
    parseTime ("".data) = none ∧
    (∀ s : Chars, (∀ c ∈ s, c ≠ ':') → parseTime s = none) ∧
    (∀ s : Chars,
      (∃ p ∈ splitOnChar ':' (trimChars ((splitOnChar ',' s).headD [])),
        p ≠ [] ∧ (∀ c ∈ p, isAlphaCh c) ∧ p ≠ "Infinity".data) →
      parseTime s = none) := by
  refine ⟨by decide, by decide, by decide, by decide, by decide, by decide, ?_, ?_⟩
  · intro s hnc
    by_cases hs : s = []
    · subst hs; rfl
    · have hclean : ∀ x ∈ trimChars ((splitOnChar ',' s).headD []), x ≠ ':' := by
        intro x hx
        have hx' : x ∈ (splitOnChar ',' s).headD [] := trimChars_subset _ hx
        have hmem : x ∈ s := by
          refine mem_splitOnChar_subset (c := ',') (l := s) ?_ hx'
          cases hsp : splitOnChar ',' s with
          | nil => exact absurd hsp (splitOnChar_ne_nil ',' s)
          | cons q t => simp
        exact hnc x hmem
      unfold parseTime
      rw [if_neg hs]
      simp only [splitOnChar_eq_single hclean]
      simp
  · intro s ⟨p, hp, hpne, hpalpha, _⟩
    by_cases hs : s = []
    · exfalso
      subst hs
      have hpn : p = [] := by simpa [splitOnChar, trimChars] using hp
      exact hpne hpn
    · have hnan : jsNum p = none := by
        unfold jsNum
        have htrim : trimChars p = p :=
          trimChars_eq_self (fun x hx => (isAlphaCh_props (hpalpha x hx)).1)
        simp only [htrim]
        rw [if_neg hpne]
        have hhead : ∀ c, p.head? = some c → isAlphaCh c := by
          intro c hc
          exact hpalpha c (List.mem_of_mem_head? hc)
        have hnotdig : allDigits p = false := by
          unfold allDigits
          cases p with
          | nil => exact absurd rfl hpne
          | cons x xs =>
            simp only [List.all_cons, Bool.and_eq_false_iff]
            exact Or.inl (isAlphaCh_props (hpalpha x (List.mem_cons_self x xs))).2.1
        by_cases hminus : p.head? = some '-'
        · exact ((isAlphaCh_props (hhead '-' hminus)).2.2.1 rfl).elim
        · rw [if_neg hminus]
          by_cases hplus : p.head? = some '+'
          · exact ((isAlphaCh_props (hhead '+' hplus)).2.2.2 rfl).elim
          · rw [if_neg hplus, if_neg (by rw [hnotdig]; exact Bool.false_ne_true)]
      unfold parseTime
      rw [if_neg hs]
      have hany : ((splitOnChar ':' (trimChars ((splitOnChar ',' s).headD []))).map jsNum).any Option.isNone = true := by
        rw [List.any_eq_true]
        exact ⟨jsNum p, List.mem_map_of_mem jsNum hp, by rw [hnan]; rfl⟩
      simp only [hany, Bool.true_or, if_pos]

/-- Witness for C8: the universally quantified clauses applied at concrete
inputs (`"12,34"` has no colon; `"1:abc"` has the purely alphabetic part
`"abc"`). -/
theorem c8_parseTime_wellformed_and_malformed_witness :
    parseTime ("12,34".data) = none ∧ parseTime ("1:abc".data) = none :=
  ⟨c8_parseTime_wellformed_and_malformed.2.2.2.2.2.2.1 ("12,34".data) (by decide),
   c8_parseTime_wellformed_and_malformed.2.2.2.2.2.2.2 ("1:abc".data)
     ⟨"abc".data, by decide, by decide, by decide, by decide⟩⟩

/-! ## Decimal numerals: lemmas for the time-format round trip -/

theorem digitChar_val {m : Nat} (h : m < 10) :
    digitVal (digitChar m) = m ∧ isDigitCh (digitChar m) = true := by
  interval_cases m <;> exact ⟨by decide, by decide⟩

/-- A digit character is not whitespace, not a separator, and not a sign. -/
theorem isDigitCh_props {c : Char} (h : isDigitCh c = true) :
    isWsCh c = false ∧ c ≠ ':' ∧ c ≠ ',' ∧ c ≠ '-' ∧ c ≠ '+' := by
  unfold isDigitCh at h
  simp only [Bool.and_eq_true, decide_eq_true_eq] at h
  have hne : ∀ c' : Char, c.toNat ≠ c'.toNat → c ≠ c' := fun c' hne heq => hne (heq ▸ rfl)
  refine ⟨?_, hne ':' (show c.toNat ≠ 58 by omega), hne ',' (show c.toNat ≠ 44 by omega),
    hne '-' (show c.toNat ≠ 45 by omega), hne '+' (show c.toNat ≠ 43 by omega)⟩
  unfold isWsCh
  have h32 : c ≠ ' ' := hne ' ' (show c.toNat ≠ 32 by omega)
  have h9 : c ≠ '\t' := hne '\t' (show c.toNat ≠ 9 by omega)
  have h10 : c ≠ '\n' := hne '\n' (show c.toNat ≠ 10 by omega)
  have h13 : c ≠ '\r' := hne '\r' (show c.toNat ≠ 13 by omega)
  simp [h32, h9, h10, h13]

theorem natToChars_ne_nil (n : Nat) : natToChars n ≠ [] := by
  rw [natToChars]
  split
  · simp
  · simp

theorem natToChars_digits (n : Nat) : ∀ c ∈ natToChars n, isDigitCh c = true := by
  induction n using Nat.strong_induction_on with
  | _ n ih =>
    rw [natToChars]
    split
    · intro c hc
      rw [List.mem_singleton] at hc
      subst hc
      exact (digitChar_val (by omega)).2
    · intro c hc
      rcases List.mem_append.mp hc with h | h
      · exact ih (n / 10) (Nat.div_lt_self (by omega) (by omega)) c h
      · rw [List.mem_singleton] at h
        subst h
        exact (digitChar_val (Nat.mod_lt n (by omega))).2

theorem decVal_append_digit (l : Chars) (c : Char) :
    decVal (l ++ [c]) = decVal l * 10 + digitVal c := by
  unfold decVal
  rw [List.foldl_append]
  rfl

theorem decVal_natToChars (n : Nat) : decVal (natToChars n) = n := by
  induction n using Nat.strong_induction_on with
  | _ n ih =>
    rw [natToChars]
    split
    · next h =>
      show decVal [digitChar n] = n
      unfold decVal
      simp [(digitChar_val h).1]
    · next h =>
      rw [decVal_append_digit, ih (n / 10) (Nat.div_lt_self (by omega) (by omega)),
        (digitChar_val (Nat.mod_lt n (by omega))).1]
      omega

theorem decVal_replicate_zero (k : Nat) (l : Chars) :
    decVal (List.replicate k '0' ++ l) = decVal l := by
  induction k with
  | zero => rfl
  | succ k ih =>
    rw [List.replicate_succ, List.cons_append]
    show (List.replicate k '0' ++ l).foldl (fun a c => a * 10 + digitVal c) (0 * 10 + digitVal '0') = decVal l
    have : (0 : Nat) * 10 + digitVal '0' = 0 := by decide
    rw [this]
    exact ih

theorem padStart2_digits {l : Chars} (h : ∀ c ∈ l, isDigitCh c = true) :
    ∀ c ∈ padStart2 l, isDigitCh c = true := by
  unfold padStart2
  split
  · intro c hc
    rcases List.mem_append.mp hc with h' | h'
    · rw [List.eq_of_mem_replicate h']
      decide
    · exact h c h'
  · exact h

theorem decVal_padStart2 (l : Chars) : decVal (padStart2 l) = decVal l := by
  unfold padStart2
  split
  · exact decVal_replicate_zero _ l
  · rfl

theorem padStart2_ne_nil (l : Chars) : padStart2 l ≠ [] := by
  unfold padStart2
  split
  · next h =>
    cases l with
    | nil => simp
    | cons x xs => simp
  · next h =>
    cases l with
    | nil => simp at h
    | cons x xs => simp

/-- `Number` on a non-empty all-digit string is its decimal value. -/
theorem jsNum_digits {l : Chars} (hne : l ≠ []) (hd : ∀ c ∈ l, isDigitCh c = true) :
    jsNum l = some ((decVal l : Nat) : Int) := by
  unfold jsNum
  have htrim : trimChars l = l := trimChars_eq_self (fun x hx => (isDigitCh_props (hd x hx)).1)
  simp only [htrim]
  rw [if_neg hne]
  have hhead : ∀ c, l.head? = some c → isDigitCh c = true := fun c hc =>
    hd c (List.mem_of_mem_head? hc)
  have hm : ¬ l.head? = some '-' := by
    intro hc
    exact (isDigitCh_props (hhead '-' hc)).2.2.2.1 rfl
  have hp : ¬ l.head? = some '+' := by
    intro hc
    exact (isDigitCh_props (hhead '+' hc)).2.2.2.2 rfl
  rw [if_neg hm, if_neg hp, if_pos (by unfold allDigits; rw [List.all_eq_true]; exact hd)]

/-! ## C9: the time format round trip -/

/-- **C9 counterexample**: the claim fails at the valid, centisecond-free time
string `"0:00"` — it parses to `0` seconds, but `fmtTime` maps `0` to `null`
(the JS `!s` guard treats `0` as absent), so formatting the parsed second
count yields no string at all, not an equivalent duration. -/
theorem c9_roundtrip_zero_counterexample :
    parseTime ("0:00".data) = some 0 ∧ fmtTime 0 = none ∧
    (parseTime ("0:00".data)).bind fmtTime = none := by
  exact ⟨by decide, rfl, by decide⟩

/-- Parsing a formatted numeral string of shape `A:B` or `A:B:C` whose pieces
are non-empty digit strings recovers the decimal values of the pieces. -/
theorem parseTime_digit_pieces2 (a b : Chars) (ha : a ≠ []) (hb : b ≠ [])
    (hda : ∀ c ∈ a, isDigitCh c = true) (hdb : ∀ c ∈ b, isDigitCh c = true) :
    parseTime (a ++ ':' :: b) = some (((decVal a : Nat) : Int) * 60 + ((decVal b : Nat) : Int)) := by
  have hchars : ∀ c ∈ a ++ ':' :: b, isDigitCh c = true ∨ c = ':' := by
    intro c hc
    rcases List.mem_append.mp hc with h | h
    · exact Or.inl (hda c h)
    · rcases List.mem_cons.mp h with h | h
      · exact Or.inr h
      · exact Or.inl (hdb c h)
  have hne : a ++ ':' :: b ≠ [] := by
    cases a <;> simp
  have hnocomma : ∀ c ∈ a ++ ':' :: b, c ≠ ',' := by
    intro c hc
    rcases hchars c hc with h | h
    · exact (isDigitCh_props h).2.2.1
    · subst h; decide
  have hnows : ∀ c ∈ a ++ ':' :: b, isWsCh c = false := by
    intro c hc
    rcases hchars c hc with h | h
    · exact (isDigitCh_props h).1
    · subst h; decide
  unfold parseTime
  rw [if_neg hne]
  simp only [splitOnChar_eq_single hnocomma, List.headD_cons, trimChars_eq_self hnows]
  rw [splitOnChar_append (fun x hx => (isDigitCh_props (hda x hx)).2.1),
    splitOnChar_eq_single (fun x hx => (isDigitCh_props (hdb x hx)).2.1)]
  rw [List.map_cons, List.map_singleton, jsNum_digits ha hda, jsNum_digits hb hdb]
  simp

/-- As `parseTime_digit_pieces2`, for the three-piece `A:B:C` form. -/
theorem parseTime_digit_pieces3 (a b c : Chars) (ha : a ≠ []) (hb : b ≠ []) (hc : c ≠ [])
    (hda : ∀ x ∈ a, isDigitCh x = true) (hdb : ∀ x ∈ b, isDigitCh x = true)
    (hdc : ∀ x ∈ c, isDigitCh x = true) :
    parseTime (a ++ ':' :: b ++ ':' :: c) =
      some (((decVal a : Nat) : Int) * 3600 + ((decVal b : Nat) : Int) * 60 +
        ((decVal c : Nat) : Int)) := by
  have hchars : ∀ x ∈ a ++ ':' :: b ++ ':' :: c, isDigitCh x = true ∨ x = ':' := by
    intro x hx
    rcases List.mem_append.mp hx with h | h
    · rcases List.mem_append.mp h with h | h
      · exact Or.inl (hda x h)
      · rcases List.mem_cons.mp h with h | h
        · exact Or.inr h
        · exact Or.inl (hdb x h)
    · rcases List.mem_cons.mp h with h | h
      · exact Or.inr h
      · exact Or.inl (hdc x h)
  have hne : a ++ ':' :: b ++ ':' :: c ≠ [] := by
    cases a <;> simp
  have hnocomma : ∀ x ∈ a ++ ':' :: b ++ ':' :: c, x ≠ ',' := by
    intro x hx
    rcases hchars x hx with h | h
    · exact (isDigitCh_props h).2.2.1
    · subst h; decide
  have hnows : ∀ x ∈ a ++ ':' :: b ++ ':' :: c, isWsCh x = false := by
    intro x hx
    rcases hchars x hx with h | h
    · exact (isDigitCh_props h).1
    · subst h; decide
  unfold parseTime
  rw [if_neg hne]
  simp only [splitOnChar_eq_single hnocomma, List.headD_cons, trimChars_eq_self hnows]
  rw [show a ++ ':' :: b ++ ':' :: c = a ++ ':' :: (b ++ ':' :: c) from by simp,
    splitOnChar_append (fun x hx => (isDigitCh_props (hda x hx)).2.1),
    splitOnChar_append (fun x hx => (isDigitCh_props (hdb x hx)).2.1),
    splitOnChar_eq_single (fun x hx => (isDigitCh_props (hdc x hx)).2.1)]
  rw [List.map_cons, List.map_cons, List.map_singleton,
    jsNum_digits ha hda, jsNum_digits hb hdb, jsNum_digits hc hdc]
  simp

/-- **C9 (amended)**: for every valid time string `s` with a positive parsed
duration, formatting the parsed second count and re-parsing it yields the same
number of seconds (the zero-duration string is the only parseable,
centisecond-free input on which the round trip degenerates, since
`fmtTime 0 = none`). -/
theorem c9_fmtTime_parseTime_roundtrip_pos (s : Chars) (n : Int)
    (hparse : parseTime s = some n) (hpos : 0 < n) :
    ∃ t, fmtTime n = some t ∧ parseTime t = some n := by
  clear hparse
  obtain ⟨N, rfl⟩ : ∃ N : Nat, (N : Int) = n := ⟨n.toNat, Int.toNat_of_nonneg (le_of_lt hpos)⟩
  have hN : 0 < N := by exact_mod_cast hpos
  have hfd : Int.fdiv (N : Int) 3600 = ((N / 3600 : Nat) : Int) := by
    rw [show (3600 : Int) = ((3600 : Nat) : Int) by norm_cast, ← Int.ofNat_fdiv]
  have htm : Int.tmod (N : Int) 3600 = ((N % 3600 : Nat) : Int) := by
    rw [show (3600 : Int) = ((3600 : Nat) : Int) by norm_cast, ← Int.ofNat_tmod]
  have hfd2 : Int.fdiv ((N % 3600 : Nat) : Int) 60 = ((N % 3600 / 60 : Nat) : Int) := by
    rw [show (60 : Int) = ((60 : Nat) : Int) by norm_cast, ← Int.ofNat_fdiv]
  have htm2 : Int.tmod (N : Int) 60 = ((N % 60 : Nat) : Int) := by
    rw [show (60 : Int) = ((60 : Nat) : Int) by norm_cast, ← Int.ofNat_tmod]
  have hi2c : ∀ k : Nat, intToChars ((k : Nat) : Int) = natToChars k := by
    intro k
    unfold intToChars
    rw [if_neg (by exact_mod_cast Nat.not_lt_zero k), Int.toNat_ofNat]
  have hne0 : ((N : Nat) : Int) ≠ 0 := by exact_mod_cast Nat.pos_iff_ne_zero.mp hN
  by_cases hsmall : N < 3600
  · -- `h = 0`: the `M:SS` form
    refine ⟨natToChars (N % 3600 / 60) ++ ':' :: padStart2 (natToChars (N % 60)), ?_, ?_⟩
    · unfold fmtTime
      rw [if_neg hne0]
      simp only [hfd, htm, hfd2, htm2, hi2c]
      rw [if_neg (by
        rw [show (N : Nat) / 3600 = 0 from Nat.div_eq_of_lt hsmall]
        exact lt_irrefl 0)]
    · rw [parseTime_digit_pieces2 _ _ (natToChars_ne_nil _) (padStart2_ne_nil _)
        (natToChars_digits _) (padStart2_digits (natToChars_digits _))]
      rw [decVal_natToChars, decVal_padStart2, decVal_natToChars]
      congr 1
      have key : N % 3600 / 60 * 60 + N % 60 = N := by omega
      exact_mod_cast key
  · -- `h > 0`: the `H:MM:SS` form
    refine ⟨natToChars (N / 3600) ++ ':' :: padStart2 (natToChars (N % 3600 / 60)) ++
        ':' :: padStart2 (natToChars (N % 60)), ?_, ?_⟩
    · unfold fmtTime
      rw [if_neg hne0]
      simp only [hfd, htm, hfd2, htm2, hi2c]
      rw [if_pos (by exact_mod_cast Nat.div_pos (le_of_not_lt hsmall) (by omega))]
    · rw [parseTime_digit_pieces3 _ _ _ (natToChars_ne_nil _) (padStart2_ne_nil _)
        (padStart2_ne_nil _) (natToChars_digits _)
        (padStart2_digits (natToChars_digits _)) (padStart2_digits (natToChars_digits _))]
      rw [decVal_natToChars, decVal_padStart2, decVal_natToChars, decVal_padStart2,
        decVal_natToChars]
      congr 1
      have key : N / 3600 * 3600 + N % 3600 / 60 * 60 + N % 60 = N := by omega
      exact_mod_cast key

/-- Witness for C9 (amended): the round trip at `"1:21:37"` / `4897` seconds. -/
theorem c9_fmtTime_parseTime_roundtrip_pos_witness :
    ∃ t, fmtTime 4897 = some t ∧ parseTime t = some 4897 :=
  c9_fmtTime_parseTime_roundtrip_pos ("1:21:37".data) 4897 (by decide) (by decide)

/-! ## Sporthive pagination (`src/server/sporthive.js`) -/

/-- `PAGE_SIZE` of `src/server/sporthive.js`. -/
def PAGE_SIZE : Nat := 100

/-- `fetchAllFinishers` of `src/server/sporthive.js`.  The network is modelled
by the page function `fetchPage : page number → rows`; the unbounded
`while (true)` loop is given a fuel parameter (every theorem below
instantiates the fuel above the page count reached, where the result no
longer depends on it).  Returns the accumulated rows together with the number
of page requests issued.  A page whose row count is zero ends the loop before
its (empty) batch is appended; a page shorter than `PAGE_SIZE` ends the loop
after appending; otherwise the loop continues with the next page number. -/
def fetchAllFinishers {α : Type} (fetchPage : Nat → List α) : Nat → Nat → List α × Nat
  | 0, _ => ([], 0)
  | fuel + 1, page =>
    let batch := fetchPage page
    if batch.length = 0 then ([], 1)
    else if batch.length < PAGE_SIZE then (batch, 1)
    else
      let rest := fetchAllFinishers fetchPage fuel (page + 1)
      (batch ++ rest.1, rest.2 + 1)

/-- The mock source of the claim: pages of exactly 100, 100 and 37 rows, then
nothing.  Rows are numbered so that the aggregate order is visible. -/
def mockPages : Nat → List Nat
  | 0 => List.range 100
  | 1 => (List.range 100).map (fun i => 100 + i)
  | 2 => (List.range 37).map (fun i => 200 + i)
  | _ => []

theorem flatten_range_succ_shift {α : Type} (g : Nat → List α) (s k : Nat) :
    ((List.range (k + 1)).map (fun i => g (s + i))).flatten =
      g s ++ ((List.range k).map (fun i => g (s + 1 + i))).flatten := by
  rw [List.range_succ_eq_map]
  simp only [List.map_cons, List.map_map, List.flatten_cons, Nat.add_zero]
  congr 1
  exact congrArg List.flatten (congrArg (fun h => List.map h (List.range k))
    (funext fun i => congrArg g (show s + Nat.succ i = s + 1 + i by omega)))

set_option maxRecDepth 4000 in
/-- **C6**: the paginated Sporthive fetch requests pages in sequence starting
at `start`, and stops exactly at the first page with fewer than `PAGE_SIZE`
rows (zero included): it returns the concatenation, in page order, of all
pages up to and including that one, and issues exactly one request per page
visited.  Instantiated on the 100/100/37 mock source it returns the 237 rows
`0,…,236` in order with exactly three page requests. -/
theorem c6_fetchAllFinishers_pagination :
    (∀ {α : Type} (fp : Nat → List α) (k fuel start : Nat),
      (∀ i, i < k → (fp (start + i)).length = PAGE_SIZE) →
      (fp (start + k)).length < PAGE_SIZE →
      k < fuel →
      fetchAllFinishers fp fuel start =
        (((List.range (k + 1)).map (fun i => fp (start + i))).flatten, k + 1)) ∧
    fetchAllFinishers mockPages 10 0 = (List.range 237, 3) := by
  constructor
  · intro α fp k
    induction k with
    | zero =>
      intro fuel start _ hlast hfuel
      cases fuel with
      | zero => omega
      | succ f =>
        show fetchAllFinishers fp (f + 1) start = _
        rw [fetchAllFinishers]
        simp only [Nat.add_zero] at hlast
        by_cases h0 : (fp start).length = 0
        · rw [if_pos h0]
          have : fp start = [] := List.length_eq_zero.mp h0
          simp [this]
        · rw [if_neg h0, if_pos hlast]
          simp [List.range_succ]
    | succ k ih =>
      intro fuel start hfull hlast hfuel
      cases fuel with
      | zero => omega
      | succ f =>
        show fetchAllFinishers fp (f + 1) start = _
        rw [fetchAllFinishers]
        have h0 : (fp start).length = PAGE_SIZE := by
          have := hfull 0 (Nat.succ_pos k)
          simpa using this
        rw [if_neg (by rw [h0]; decide), if_neg (by rw [h0]; exact lt_irrefl _)]
        have hrest := ih f (start + 1)
          (fun i hi => by
            have := hfull (i + 1) (by omega)
            rw [show start + (i + 1) = start + 1 + i from by omega] at this
            exact this)
          (by
            rw [show start + 1 + k = start + (k + 1) from by omega]
            exact hlast)
          (by omega)
        rw [hrest]
        simp only [Prod.mk.injEq]
        refine ⟨?_, trivial⟩
        exact (flatten_range_succ_shift fp start (k + 1)).symm
  · decide

set_option maxRecDepth 4000 in
/-- Witness for C6: the universally quantified conjunct applied to the mock
source (`k = 2`, fuel `10`, first page `0`). -/
theorem c6_fetchAllFinishers_pagination_witness :
    fetchAllFinishers mockPages 10 0 =
      (((List.range 3).map (fun i => mockPages (0 + i))).flatten, 3) :=
  c6_fetchAllFinishers_pagination.1 mockPages 2 10 0
    (fun i hi => by interval_cases i <;> decide) (by decide) (by omega)

/-! ## The persistence model (`race_events` / `race_finishers`) -/

/-- One row of the `race_events` table (schema in `README.md` /
`db/schema.sql`): keyed by the serial `id`, carrying the
`UNIQUE(sporthive_event_id, sporthive_race_id)` source identity. -/
structure EventRow where
  id : Nat
  event_id : String
  race_id : String
  event_name : String
  race_name : Option String
  event_date : Option String
  distance_m : Option Int
  location : Option String
  total_finishers : Nat
  deriving Repr, DecidableEq

/-- One row of the `race_finishers` table. -/
structure FinisherRow where
  race_event_id : Nat
  bib : Option String
  name : Option String
  gender : Option Int
  age_group : Option String
  overall_rank : Option Int
  gender_rank : Option Int
  age_group_rank : Option Int
  chip_time_s : Option Int
  country_code : Option String
  deriving Repr, DecidableEq

/-- The backing store: both tables plus the next value of the serial
primary-key sequence of `race_events`. -/
structure DB where
  events : List EventRow
  finishers : List FinisherRow
  nextId : Nat
  deriving Repr, DecidableEq

/-- `SELECT id, total_finishers FROM race_events WHERE sporthive_event_id=$1
AND sporthive_race_id=$2` (first matching row or null). -/
def findEvent (db : DB) (eid rid : String) : Option EventRow :=
  db.events.find? (fun e => decide (e.event_id = eid ∧ e.race_id = rid))

/-- `DELETE FROM race_finishers WHERE race_event_id=$1` followed by
`DELETE FROM race_events WHERE id=$1`. -/
def deleteEvent (db : DB) (i : Nat) : DB :=
  { db with
    finishers := db.finishers.filter (fun f => decide (f.race_event_id ≠ i)),
    events := db.events.filter (fun e => decide (e.id ≠ i)) }

/-- JS `x || null` on a nullable string: `null` and `""` both end up null. -/
def orNullStr (o : Option String) : Option String :=
  match o with
  | some s => if s = "" then none else some s
  | none => none

/-- JS `x || null` on a nullable number: `null` and `0` both end up null. -/
def orNullInt (o : Option Int) : Option Int :=
  match o with
  | some n => if n = 0 then none else some n
  | none => none

/-- JS `x || d` on a nullable string with a non-empty default. -/
def orDefault (o : Option String) (d : String) : String :=
  match orNullStr o with
  | some s => s
  | none => d

/-- The metadata argument shared by both import entry points. -/
structure ImportMeta where
  eventName : Option String
  raceName : Option String
  eventDate : Option String
  distanceM : Option Int
  location : Option String
  deriving Repr, DecidableEq

/-- A raw Sporthive participant record, restricted to the fields
`importRace` of `src/server/sporthive.js` reads when building its INSERT
parameters. -/
structure SpFinisher where
  bib : Option String
  name : Option String
  gender : Option Int
  category : Option String
  rank : Option Int
  genderRank : Option Int
  categoryRank : Option Int
  chipTime : Option Int
  countryCode : Option String
  deriving Repr, DecidableEq

/-- The `race_finishers` row built for one Sporthive record (the
`params.push(...)` block of `importRace`): every field goes through the JS
`|| null` coercion. -/
def spRow (raceEventId : Nat) (f : SpFinisher) : FinisherRow :=
  { race_event_id := raceEventId
    bib := orNullStr f.bib
    name := orNullStr f.name
    gender := orNullInt f.gender
    age_group := orNullStr f.category
    overall_rank := orNullInt f.rank
    gender_rank := orNullInt f.genderRank
    age_group_rank := orNullInt f.categoryRank
    chip_time_s := orNullInt f.chipTime
    country_code := orNullStr f.countryCode }

/-- The batched finisher INSERT (`BATCH = 50`): appends `rows` to the table
in slices of 50, exactly as the source loop does. -/
def batchInsert (rows : List FinisherRow) (table : List FinisherRow) : List FinisherRow :=
  match rows with
  | [] => table
  | x :: xs => batchInsert ((x :: xs).drop 50) (table ++ (x :: xs).take 50)
termination_by rows.length
decreasing_by simp only [List.length_drop, List.length_cons]; omega

theorem batchInsert_eq_append : ∀ (n : Nat) (rows table : List FinisherRow),
    rows.length ≤ n → batchInsert rows table = table ++ rows := by
  intro n
  induction n with
  | zero =>
    intro rows table hlen
    have : rows = [] := List.length_eq_zero.mp (Nat.le_zero.mp hlen)
    subst this
    simp only [batchInsert.eq_def, List.append_nil]
  | succ n ih =>
    intro rows table hlen
    match rows with
    | [] => simp only [batchInsert.eq_def, List.append_nil]
    | x :: xs =>
      rw [batchInsert.eq_def]
      simp only []
      rw [ih ((x :: xs).drop 50) (table ++ (x :: xs).take 50)
        (by simp only [List.length_drop, List.length_cons] at hlen ⊢; omega)]
      rw [List.append_assoc, List.take_append_drop]

/-- The structured result of an import call (`already_imported` is the
`ok: false` outcome, `imported` the `ok: true` summary; a thrown error is the
`Except.error` branch of the caller). -/
inductive ImportResult where
  | alreadyImported (race_event_id : Nat) (total_finishers : Nat)
  | imported (race_event_id : Nat) (total_finishers : Nat)
  deriving Repr, DecidableEq

/-- The error message of the Sporthive zero-finisher throw. -/
def spEmptyMsg : String := "No finishers returned - check event/race IDs"

/-- The error message of the RaceResult zero-finisher throw. -/
def rrEmptyMsg : String := "No finishers found"

/-- The `race_events` row the Sporthive INSERT creates (`RETURNING id` is the
fresh serial value `i`). -/
def spEventRow (i : Nat) (eid rid : String) (meta : ImportMeta) (total : Nat) : EventRow :=
  { id := i
    event_id := eid
    race_id := rid
    event_name := orDefault meta.eventName ("Race " ++ eid)
    race_name := orNullStr meta.raceName
    event_date := orNullStr meta.eventDate
    distance_m := orNullInt meta.distanceM
    location := orNullStr meta.location
    total_finishers := total }

/-- The part of `importRace` after the existing-import lookup: the
zero-finisher throw, the two DELETEs when replacing (`replaceId` is the id of
the import being replaced), the `race_events` INSERT returning the fresh
serial id, and the batched `race_finishers` INSERT. -/
def spInsertPhase (db : DB) (eid rid : String) (meta : ImportMeta)
    (fetched : List SpFinisher) (replaceId : Option Nat) :
    Except String ImportResult × DB :=
  if fetched.length = 0 then
    (Except.error spEmptyMsg, db)
  else
    let db1 := match replaceId with
      | some i => deleteEvent db i
      | none => db
    let raceEventId := db1.nextId
    let rows := fetched.map (spRow raceEventId)
    let db2 : DB :=
      { events := db1.events ++ [spEventRow raceEventId eid rid meta fetched.length]
        finishers := batchInsert rows db1.finishers
        nextId := raceEventId + 1 }
    (Except.ok (ImportResult.imported raceEventId fetched.length), db2)

/-- `importRace` of `src/server/sporthive.js`, after URL parsing and with the
network crawl modelled by the `fetched` argument (the list
`fetchAllFinishers` returned).  The source flow is mirrored in order:
existing-import lookup; `already_imported` early return when an import exists
and `replace` is false; then the fetch result is checked and persisted by
`spInsertPhase`. -/
def importRace (db : DB) (eid rid : String) (meta : ImportMeta) (replace : Bool)
    (fetched : List SpFinisher) : Except String ImportResult × DB :=
  match findEvent db eid rid with
  | some e =>
    if replace then spInsertPhase db eid rid meta fetched (some e.id)
    else (Except.ok (ImportResult.alreadyImported e.id e.total_finishers), db)
  | none => spInsertPhase db eid rid meta fetched none

/-- One extracted RaceResult finisher (the objects `extractFinishers` of
`src/server/raceresult.js` pushes): the name is a string the extractor has
checked to be non-empty. -/
structure RRFinisher where
  bib : Option String
  name : String
  ageGroup : Option String
  chipTime : Option Int
  rank : Option Int
  gender : Option Int
  contest : String
  deriving Repr, DecidableEq

/-- The `race_finishers` row built for one RaceResult record: the INSERT
lists only seven columns, so `gender_rank`, `age_group_rank` and
`country_code` are never written and stay NULL. -/
def rrRow (raceEventId : Nat) (f : RRFinisher) : FinisherRow :=
  { race_event_id := raceEventId
    bib := f.bib
    name := some f.name
    gender := f.gender
    age_group := f.ageGroup
    overall_rank := f.rank
    gender_rank := none
    age_group_rank := none
    chip_time_s := f.chipTime
    country_code := none }

/-- The sort key of the rank back-fill comparator
`(a.chipTime || 99999) - (b.chipTime || 99999)`: a missing — or zero, since
`0` is falsy — chip time counts as `99999`. -/
def rrSortKey (f : RRFinisher) : Int :=
  match f.chipTime with
  | some t => if t = 0 then 99999 else t
  | none => 99999

/-- JS `!f.rank`: null or zero. -/
def rankFalsy : Option Int → Bool
  | none => true
  | some n => n = 0

/-- Lines 263–264 of `src/server/raceresult.js`:
`finishers.sort((a, b) => (a.chipTime || 99999) - (b.chipTime || 99999))`
followed by `finishers.forEach((f, i) => { if (!f.rank) f.rank = i + 1 })`.
JS `Array.prototype.sort` with a consistent numeric comparator is a stable
ascending sort, embedded as insertion sort with a `≤` comparison. -/
def rrSortRank (fs : List RRFinisher) : List RRFinisher :=
  let sorted := List.insertionSort (fun a b => rrSortKey a ≤ rrSortKey b) fs
  sorted.enum.map (fun p =>
    if rankFalsy p.2.rank then { p.2 with rank := some ((p.1 : Int) + 1) } else p.2)

/-- The `race_events` row the RaceResult INSERT creates (race id fixed to the
sentinel `'rr'`). -/
def rrEventRow (i : Nat) (eid : String) (meta : ImportMeta) (total : Nat) : EventRow :=
  { id := i
    event_id := eid
    race_id := "rr"
    event_name := orDefault meta.eventName ("RaceResult " ++ eid)
    race_name := orNullStr meta.raceName
    event_date := orNullStr meta.eventDate
    distance_m := orNullInt meta.distanceM
    location := orNullStr meta.location
    total_finishers := total }

/-- The part of `importRaceResult` after the existing-import lookup: the
zero-finisher throw, the optional replace DELETEs, the `race_events` INSERT
(with the fixed `'rr'` race id), the rank back-fill sort, and the batched
seven-column `race_finishers` INSERT. -/
def rrInsertPhase (db : DB) (eid : String) (meta : ImportMeta)
    (fetched : List RRFinisher) (replaceId : Option Nat) :
    Except String ImportResult × DB :=
  if fetched.length = 0 then
    (Except.error rrEmptyMsg, db)
  else
    let db1 := match replaceId with
      | some i => deleteEvent db i
      | none => db
    let raceEventId := db1.nextId
    let rows := (rrSortRank fetched).map (rrRow raceEventId)
    let db2 : DB :=
      { events := db1.events ++ [rrEventRow raceEventId eid meta fetched.length]
        finishers := batchInsert rows db1.finishers
        nextId := raceEventId + 1 }
    (Except.ok (ImportResult.imported raceEventId fetched.length), db2)

/-- `importRaceResult` of `src/server/raceresult.js`, after URL parsing and
with the schema discovery and the paginated crawl modelled by the `fetched`
argument (the deduplicated list `fetchAllFinishers` returned).  The
existing-import lookup uses the fixed sentinel race id `'rr'`. -/
def importRaceResult (db : DB) (eid : String) (meta : ImportMeta) (replace : Bool)
    (fetched : List RRFinisher) : Except String ImportResult × DB :=
  match findEvent db eid "rr" with
  | some e =>
    if replace then rrInsertPhase db eid meta fetched (some e.id)
    else (Except.ok (ImportResult.alreadyImported e.id e.total_finishers), db)
  | none => rrInsertPhase db eid meta fetched none

/-- Well-formedness of the store: serial ids are below the sequence value,
ids of event rows are unique, and the
`UNIQUE(sporthive_event_id, sporthive_race_id)` constraint holds. -/
def DB.Wf (db : DB) : Prop :=
  (∀ e ∈ db.events, e.id < db.nextId) ∧
  (∀ f ∈ db.finishers, f.race_event_id < db.nextId) ∧
  db.events.Pairwise (fun a b => a.id ≠ b.id) ∧
  db.events.Pairwise (fun a b => ¬(a.event_id = b.event_id ∧ a.race_id = b.race_id))

/-! ## Orchestrator lemmas -/

theorem findEvent_mem {db : DB} {eid rid : String} {e : EventRow}
    (h : findEvent db eid rid = some e) :
    e ∈ db.events ∧ e.event_id = eid ∧ e.race_id = rid := by
  unfold findEvent at h
  refine ⟨List.mem_of_find?_eq_some h, ?_, ?_⟩ <;>
  · have hp := List.find?_some h
    simp only [decide_eq_true_eq] at hp
    tauto

theorem batchInsert_append (rows table : List FinisherRow) :
    batchInsert rows table = table ++ rows :=
  batchInsert_eq_append rows.length rows table (le_refl _)

/-- The state the insert phases start from: the optional replace delete. -/
def deleteOpt (db : DB) : Option Nat → DB
  | some i => deleteEvent db i
  | none => db

/-- The state and result of the Sporthive insert phase when it does insert. -/
theorem spInsertPhase_eq (db : DB) (eid rid : String) (m : ImportMeta)
    (fetched : List SpFinisher) (rid? : Option Nat) (hne : fetched ≠ []) :
    spInsertPhase db eid rid m fetched rid? =
      (Except.ok (ImportResult.imported (deleteOpt db rid?).nextId fetched.length),
       { events := (deleteOpt db rid?).events ++
           [spEventRow (deleteOpt db rid?).nextId eid rid m fetched.length]
         finishers := (deleteOpt db rid?).finishers ++
           fetched.map (spRow (deleteOpt db rid?).nextId)
         nextId := (deleteOpt db rid?).nextId + 1 }) := by
  unfold spInsertPhase
  rw [if_neg (by simpa using hne)]
  cases rid? <;> simp only [deleteOpt, batchInsert_append]

/-- The state and result of the RaceResult insert phase when it does insert. -/
theorem rrInsertPhase_eq (db : DB) (eid : String) (m : ImportMeta)
    (fetched : List RRFinisher) (rid? : Option Nat) (hne : fetched ≠ []) :
    rrInsertPhase db eid m fetched rid? =
      (Except.ok (ImportResult.imported (deleteOpt db rid?).nextId fetched.length),
       { events := (deleteOpt db rid?).events ++
           [rrEventRow (deleteOpt db rid?).nextId eid m fetched.length]
         finishers := (deleteOpt db rid?).finishers ++
           (rrSortRank fetched).map (rrRow (deleteOpt db rid?).nextId)
         nextId := (deleteOpt db rid?).nextId + 1 }) := by
  unfold rrInsertPhase
  rw [if_neg (by simpa using hne)]
  cases rid? <;> simp only [deleteOpt, batchInsert_append]

theorem rrSortRank_length (fs : List RRFinisher) :
    (rrSortRank fs).length = fs.length := by
  unfold rrSortRank
  simp [List.enum_length, List.length_insertionSort]

/-! ## C1: idempotence without replace -/

/-- **C1**: whenever a race event with the given (source-event-id,
source-race-id) pair is already stored, calling the import again with
`replace = false` returns the `already_imported` result (the `ok: false`
outcome carrying the stored id and finisher count) and returns the store
unchanged — no write happens, so the persisted finisher count after this
second call equals the count after the first.  Both the Sporthive and the
RaceResult paths behave this way. -/
theorem c1_second_import_without_replace_is_noop :
    (∀ (db : DB) (eid rid : String) (m : ImportMeta) (fetched : List SpFinisher) (e : EventRow),
      findEvent db eid rid = some e →
      importRace db eid rid m false fetched =
        (Except.ok (ImportResult.alreadyImported e.id e.total_finishers), db)) ∧
    (∀ (db : DB) (eid : String) (m : ImportMeta) (fetched : List RRFinisher) (e : EventRow),
      findEvent db eid "rr" = some e →
      importRaceResult db eid m false fetched =
        (Except.ok (ImportResult.alreadyImported e.id e.total_finishers), db)) := by
  constructor
  · intro db eid rid m fetched e h
    unfold importRace
    rw [h]
    rfl
  · intro db eid m fetched e h
    unfold importRaceResult
    rw [h]
    rfl

/-- A store holding one already-imported event (id 0, one finisher). -/
def exEvent : EventRow :=
  { id := 0, event_id := "55", race_id := "7", event_name := "Race 55"
    race_name := none, event_date := none, distance_m := none, location := none
    total_finishers := 1 }

def exFinisherRow : FinisherRow :=
  { race_event_id := 0, bib := some "1", name := some "Ann Alvarez"
    gender := some 2, age_group := some "F30", overall_rank := some 1
    gender_rank := none, age_group_rank := none, chip_time_s := some 3600
    country_code := none }

def exDB : DB := { events := [exEvent], finishers := [exFinisherRow], nextId := 1 }

/-- As `exEvent` / `exDB`, for the RaceResult path (race id `'rr'`). -/
def exEventRR : EventRow :=
  { id := 0, event_id := "99", race_id := "rr", event_name := "RaceResult 99"
    race_name := none, event_date := none, distance_m := none, location := none
    total_finishers := 1 }

def exDBRR : DB := { events := [exEventRR], finishers := [exFinisherRow], nextId := 1 }

def exMeta : ImportMeta := ⟨none, none, none, none, none⟩

/-- Witness for C1: both paths, on a one-event store. -/
theorem c1_second_import_without_replace_is_noop_witness :
    importRace exDB "55" "7" exMeta false [] =
      (Except.ok (ImportResult.alreadyImported 0 1), exDB) ∧
    importRaceResult exDBRR "99" exMeta false [] =
      (Except.ok (ImportResult.alreadyImported 0 1), exDBRR) :=
  ⟨c1_second_import_without_replace_is_noop.1 exDB "55" "7" exMeta [] exEvent (by decide),
   c1_second_import_without_replace_is_noop.2 exDBRR "99" exMeta [] exEventRR (by decide)⟩

/-! ## C3: a crawl with zero finishers aborts before any write -/

/-- **C3**: when the crawl/parse produced zero finisher records, both import
paths throw the hard "no finishers" failure and return the store exactly as
it was — in particular with `replace = true` the delete of the prior import
has not happened, because the zero-record check precedes the DELETEs.  (With
`replace = false` and an existing import the crawl is never reached, so the
zero-record case arises with an existing import only when replacing, and
otherwise when no import exists.) -/
theorem c3_zero_finishers_abort_without_write :
    (∀ (db : DB) (eid rid : String) (m : ImportMeta),
      importRace db eid rid m true [] = (Except.error spEmptyMsg, db)) ∧
    (∀ (db : DB) (eid rid : String) (m : ImportMeta),
      findEvent db eid rid = none →
      importRace db eid rid m false [] = (Except.error spEmptyMsg, db)) ∧
    (∀ (db : DB) (eid : String) (m : ImportMeta),
      importRaceResult db eid m true [] = (Except.error rrEmptyMsg, db)) ∧
    (∀ (db : DB) (eid : String) (m : ImportMeta),
      findEvent db eid "rr" = none →
      importRaceResult db eid m false [] = (Except.error rrEmptyMsg, db)) := by
  refine ⟨?_, ?_, ?_, ?_⟩
  · intro db eid rid m
    unfold importRace
    cases h : findEvent db eid rid <;> rfl
  · intro db eid rid m h
    unfold importRace
    rw [h]
    rfl
  · intro db eid m
    unfold importRaceResult
    cases h : findEvent db eid "rr" <;> rfl
  · intro db eid m h
    unfold importRaceResult
    rw [h]
    rfl

/-- Witness for C3: the replace-true clauses on the one-event store and the
replace-false clauses on the empty store. -/
theorem c3_zero_finishers_abort_without_write_witness :
    importRace exDB "55" "7" exMeta true [] = (Except.error spEmptyMsg, exDB) ∧
    importRace ⟨[], [], 0⟩ "55" "7" exMeta false [] =
      (Except.error spEmptyMsg, ⟨[], [], 0⟩) ∧
    importRaceResult exDBRR "99" exMeta true [] = (Except.error rrEmptyMsg, exDBRR) ∧
    importRaceResult ⟨[], [], 0⟩ "99" exMeta false [] =
      (Except.error rrEmptyMsg, ⟨[], [], 0⟩) :=
  ⟨c3_zero_finishers_abort_without_write.1 exDB "55" "7" exMeta,
   c3_zero_finishers_abort_without_write.2.1 ⟨[], [], 0⟩ "55" "7" exMeta (by decide),
   c3_zero_finishers_abort_without_write.2.2.1 exDBRR "99" exMeta,
   c3_zero_finishers_abort_without_write.2.2.2 ⟨[], [], 0⟩ "99" exMeta (by decide)⟩

/-! ## C10: RaceResult rows carry only the overall rank -/

/-- **C10**: every `race_finishers` row the RaceResult import path adds to the
store has `gender_rank`, `age_group_rank` and `country_code` null — the
seven-column INSERT never writes them — even though the extractor infers a
gender and the record shape allows scoped ranks.  (Any row of the resulting
store either was already present or is such a new row.) -/
theorem c10_raceresult_rows_only_overall_rank :
    ∀ (db : DB) (eid : String) (m : ImportMeta) (replace : Bool)
      (fetched : List RRFinisher),
      ∀ f ∈ (importRaceResult db eid m replace fetched).2.finishers,
        f ∈ db.finishers ∨
          (f.gender_rank = none ∧ f.age_group_rank = none ∧ f.country_code = none) := by
  intro db eid m replace fetched f hf
  have hphase : ∀ rid? : Option Nat,
      f ∈ (rrInsertPhase db eid m fetched rid?).2.finishers →
      f ∈ db.finishers ∨
        (f.gender_rank = none ∧ f.age_group_rank = none ∧ f.country_code = none) := by
    intro rid? hmem
    by_cases hlen : fetched = []
    · subst hlen
      have hzero : rrInsertPhase db eid m [] rid? = (Except.error rrEmptyMsg, db) := rfl
      rw [hzero] at hmem
      exact Or.inl hmem
    · rw [rrInsertPhase_eq db eid m fetched rid? hlen] at hmem
      rcases List.mem_append.mp hmem with h | h
      · cases rid? with
        | none => exact Or.inl h
        | some i =>
          simp only [deleteOpt, deleteEvent] at h
          exact Or.inl (List.mem_of_mem_filter h)
      · rcases List.mem_map.mp h with ⟨g, _, hg⟩
        subst hg
        exact Or.inr ⟨rfl, rfl, rfl⟩
  unfold importRaceResult at hf
  revert hf
  cases hfind : findEvent db eid "rr" with
  | some e =>
    cases replace with
    | true =>
      intro hf
      exact hphase (some e.id) (by simpa using hf)
    | false =>
      intro hf
      exact Or.inl (by simpa using hf)
  | none =>
    intro hf
    exact hphase none (by simpa using hf)

/-- An extracted RaceResult record with an inferred gender and a scoped-rank
shape available, used to witness C10. -/
def exRR : RRFinisher :=
  { bib := some "101", name := "Bea Brown", ageGroup := some "Female 30-34"
    chipTime := some 5400, rank := none, gender := some 2, contest := "10K" }

/-- Witness for C10: the single row imported from `exRR` into the empty store
is new and carries no gender rank, age-group rank or country code. -/
theorem c10_raceresult_rows_only_overall_rank_witness :
    rrRow 0 { exRR with rank := some 1 } ∈
      (importRaceResult ⟨[], [], 0⟩ "99" exMeta false [exRR]).2.finishers ∧
    ((rrRow 0 { exRR with rank := some 1 }) ∈ (⟨[], [], 0⟩ : DB).finishers ∨
      ((rrRow 0 { exRR with rank := some 1 }).gender_rank = none ∧
       (rrRow 0 { exRR with rank := some 1 }).age_group_rank = none ∧
       (rrRow 0 { exRR with rank := some 1 }).country_code = none)) := by
  have hins := rrInsertPhase_eq ⟨[], [], 0⟩ "99" exMeta [exRR] none (by decide)
  have hmem : rrRow 0 { exRR with rank := some 1 } ∈
      (importRaceResult ⟨[], [], 0⟩ "99" exMeta false [exRR]).2.finishers := by
    unfold importRaceResult
    rw [show findEvent ⟨[], [], 0⟩ "99" "rr" = none from rfl]
    rw [hins]
    show _ ∈ ([] : List FinisherRow) ++ (rrSortRank [exRR]).map (rrRow 0)
    rw [show rrSortRank [exRR] = [{ exRR with rank := some 1 }] from by decide]
    exact List.mem_singleton.mpr rfl
  exact ⟨hmem,
    c10_raceresult_rows_only_overall_rank ⟨[], [], 0⟩ "99" exMeta false [exRR] _ hmem⟩

/-! ## C2: replace semantics -/

theorem eventKeyNe_symm :
    Symmetric (fun a b : EventRow => ¬(a.event_id = b.event_id ∧ a.race_id = b.race_id)) :=
  fun _ _ h hk => h ⟨hk.1.symm, hk.2.symm⟩

/-- **C2**: re-importing a stored (event-id, race-id) pair with
`replace = true`, against a source that now yields the non-empty list
`fetched` of M records, leaves exactly M finisher rows for that event: the
call reports M records imported under the fresh event id, the store holds
exactly M finisher rows under that fresh id, no finisher row of the prior
older import survives, the prior event row is gone, and the (event-id, race-id)
lookup now finds the fresh event row with finisher count M.  Holds on every
well-formed store, for both the Sporthive and the RaceResult paths. -/
theorem c2_replace_leaves_exactly_the_new_rows :
    (∀ (db : DB) (eid rid : String) (m : ImportMeta) (fetched : List SpFinisher) (e : EventRow),
      db.Wf → findEvent db eid rid = some e → fetched ≠ [] →
      (importRace db eid rid m true fetched).1 =
          Except.ok (ImportResult.imported db.nextId fetched.length) ∧
      (((importRace db eid rid m true fetched).2).finishers.filter
          (fun f => decide (f.race_event_id = db.nextId))).length = fetched.length ∧
      (∀ f ∈ ((importRace db eid rid m true fetched).2).finishers, f.race_event_id ≠ e.id) ∧
      (∀ ev ∈ ((importRace db eid rid m true fetched).2).events, ev.id ≠ e.id) ∧
      (∃ newE, findEvent ((importRace db eid rid m true fetched).2) eid rid = some newE ∧
        newE.id = db.nextId ∧ newE.total_finishers = fetched.length)) ∧
    (∀ (db : DB) (eid : String) (m : ImportMeta) (fetched : List RRFinisher) (e : EventRow),
      db.Wf → findEvent db eid "rr" = some e → fetched ≠ [] →
      (importRaceResult db eid m true fetched).1 =
          Except.ok (ImportResult.imported db.nextId fetched.length) ∧
      (((importRaceResult db eid m true fetched).2).finishers.filter
          (fun f => decide (f.race_event_id = db.nextId))).length = fetched.length ∧
      (∀ f ∈ ((importRaceResult db eid m true fetched).2).finishers, f.race_event_id ≠ e.id) ∧
      (∀ ev ∈ ((importRaceResult db eid m true fetched).2).events, ev.id ≠ e.id) ∧
      (∃ newE, findEvent ((importRaceResult db eid m true fetched).2) eid "rr" = some newE ∧
        newE.id = db.nextId ∧ newE.total_finishers = fetched.length)) := by
  constructor
  · intro db eid rid m fetched e hwf hfind hne
    obtain ⟨hemem, heid, hrid⟩ := findEvent_mem hfind
    obtain ⟨hwfe, hwff, hwfid, hwfkey⟩ := hwf
    have heidlt : e.id < db.nextId := hwfe e hemem
    have hcall : importRace db eid rid m true fetched =
        spInsertPhase db eid rid m fetched (some e.id) := by
      unfold importRace
      rw [hfind]
      rfl
    rw [hcall, spInsertPhase_eq db eid rid m fetched (some e.id) hne]
    simp only [deleteOpt, deleteEvent]
    refine ⟨trivial, ?_, ?_, ?_, ?_⟩
    · rw [List.filter_append]
      rw [List.filter_eq_nil_iff.mpr (fun f hf => by
        have hmem : f ∈ db.finishers := List.mem_of_mem_filter hf
        have := hwff f hmem
        simp only [decide_eq_true_eq]
        omega)]
      rw [List.filter_eq_self.mpr (fun row hrow => by
        rcases List.mem_map.mp hrow with ⟨g, _, hg⟩
        subst hg
        simp [spRow])]
      simp
    · intro f hf
      rcases List.mem_append.mp hf with h | h
      · have := List.of_mem_filter h
        simpa using this
      · rcases List.mem_map.mp h with ⟨g, _, hg⟩
        subst hg
        show db.nextId ≠ e.id
        omega
    · intro ev hev
      rcases List.mem_append.mp hev with h | h
      · have := List.of_mem_filter h
        simpa using this
      · rw [List.mem_singleton.mp h]
        show db.nextId ≠ e.id
        omega
    · refine ⟨spEventRow db.nextId eid rid m fetched.length, ?_, rfl, rfl⟩
      unfold findEvent
      rw [List.find?_append]
      rw [List.find?_eq_none.mpr (fun ev hev hp => by
        have hmem : ev ∈ db.events := List.mem_of_mem_filter hev
        have hevne : ev.id ≠ e.id := by
          have := List.of_mem_filter hev
          simpa using this
        simp only [decide_eq_true_eq] at hp
        by_cases hevE : ev = e
        · exact hevne (by rw [hevE])
        · exact (List.Pairwise.forall eventKeyNe_symm hwfkey hmem hemem hevE)
            ⟨by rw [hp.1, heid], by rw [hp.2, hrid]⟩)]
      simp [spEventRow]
  · intro db eid m fetched e hwf hfind hne
    obtain ⟨hemem, heid, hrid⟩ := findEvent_mem hfind
    obtain ⟨hwfe, hwff, hwfid, hwfkey⟩ := hwf
    have heidlt : e.id < db.nextId := hwfe e hemem
    have hcall : importRaceResult db eid m true fetched =
        rrInsertPhase db eid m fetched (some e.id) := by
      unfold importRaceResult
      rw [hfind]
      rfl
    rw [hcall, rrInsertPhase_eq db eid m fetched (some e.id) hne]
    simp only [deleteOpt, deleteEvent]
    refine ⟨trivial, ?_, ?_, ?_, ?_⟩
    · rw [List.filter_append]
      rw [List.filter_eq_nil_iff.mpr (fun f hf => by
        have hmem : f ∈ db.finishers := List.mem_of_mem_filter hf
        have := hwff f hmem
        simp only [decide_eq_true_eq]
        omega)]
      rw [List.filter_eq_self.mpr (fun row hrow => by
        rcases List.mem_map.mp hrow with ⟨g, _, hg⟩
        subst hg
        simp [rrRow])]
      simp [rrSortRank_length]
    · intro f hf
      rcases List.mem_append.mp hf with h | h
      · have := List.of_mem_filter h
        simpa using this
      · rcases List.mem_map.mp h with ⟨g, _, hg⟩
        subst hg
        show db.nextId ≠ e.id
        omega
    · intro ev hev
      rcases List.mem_append.mp hev with h | h
      · have := List.of_mem_filter h
        simpa using this
      · rw [List.mem_singleton.mp h]
        show db.nextId ≠ e.id
        omega
    · refine ⟨rrEventRow db.nextId eid m fetched.length, ?_, rfl, rfl⟩
      unfold findEvent
      rw [List.find?_append]
      rw [List.find?_eq_none.mpr (fun ev hev hp => by
        have hmem : ev ∈ db.events := List.mem_of_mem_filter hev
        have hevne : ev.id ≠ e.id := by
          have := List.of_mem_filter hev
          simpa using this
        simp only [decide_eq_true_eq] at hp
        by_cases hevE : ev = e
        · exact hevne (by rw [hevE])
        · exact (List.Pairwise.forall eventKeyNe_symm hwfkey hmem hemem hevE)
            ⟨by rw [hp.1, heid], by rw [hp.2, hrid]⟩)]
      simp [rrEventRow]

/-- Two fresh Sporthive records for the C2 witness (M = 2 against N = 1). -/
def exSp1 : SpFinisher :=
  { bib := some "9", name := some "Cara Cruz", gender := some 2
    category := some "F35", rank := some 1, genderRank := some 1
    categoryRank := some 1, chipTime := some 5000, countryCode := some "PR" }

def exSp2 : SpFinisher :=
  { bib := some "10", name := some "Dan Diaz", gender := some 1
    category := some "M35", rank := some 2, genderRank := some 1
    categoryRank := some 1, chipTime := some 5100, countryCode := none }

def exRR2 : RRFinisher :=
  { bib := some "102", name := "Eva Estrada", ageGroup := some "Female 35-39"
    chipTime := some 5600, rank := none, gender := some 2, contest := "10K" }

/-- Witness for C2: replacing the one-finisher import of `exDB` / `exDBRR`
with two source records leaves exactly two rows under the fresh event id. -/
theorem c2_replace_leaves_exactly_the_new_rows_witness :
    (((importRace exDB "55" "7" exMeta true [exSp1, exSp2]).2).finishers.filter
        (fun f => decide (f.race_event_id = exDB.nextId))).length = 2 ∧
    (((importRaceResult exDBRR "99" exMeta true [exRR, exRR2]).2).finishers.filter
        (fun f => decide (f.race_event_id = exDBRR.nextId))).length = 2 :=
  ⟨(c2_replace_leaves_exactly_the_new_rows.1 exDB "55" "7" exMeta [exSp1, exSp2] exEvent
      (by refine ⟨?_, ?_, ?_, ?_⟩ <;> decide) (by decide) (by decide)).2.1,
   (c2_replace_leaves_exactly_the_new_rows.2 exDBRR "99" exMeta [exRR, exRR2] exEventRR
      (by refine ⟨?_, ?_, ?_, ?_⟩ <;> decide) (by decide) (by decide)).2.1⟩

/-! ## C7: rank back-fill -/

/-- The ordering the claim describes: chip times ascending, records without a
chip time after every record with one. -/
def timeLe (a b : RRFinisher) : Prop :=
  match a.chipTime, b.chipTime with
  | some x, some y => x ≤ y
  | some _, none => True
  | none, some _ => False
  | none, none => True

theorem timeLe_some_some {a b : RRFinisher} {x y : Int} (ha : a.chipTime = some x)
    (hb : b.chipTime = some y) (h : x ≤ y) : timeLe a b := by
  unfold timeLe
  rw [ha, hb]
  exact h

theorem timeLe_none_right {a b : RRFinisher} (hb : b.chipTime = none) : timeLe a b := by
  unfold timeLe
  rw [hb]
  cases a.chipTime <;> trivial

/-- **C7 counterexample**: the back-fill sorts by the key
`chipTime || 99999`, so a missing chip time is *not* always sorted last — a
finisher with no chip time (key 99999) sorts before a finisher whose chip
time is 100000 seconds, and receives overall rank 1 while the timed finisher
receives rank 2, contradicting "missing times sorted last" and "rank by
position in chip-time-ascending order" as stated. -/
theorem c7_missing_time_before_huge_time_counterexample :
    (rrSortRank
        [{ bib := none, name := "Slow", ageGroup := none, chipTime := some 100000
           rank := none, gender := none, contest := "c" },
         { bib := none, name := "Untimed", ageGroup := none, chipTime := none
           rank := none, gender := none, contest := "c" }]).map
        (fun f => (f.chipTime, f.rank)) =
      [(none, some 1), (some 100000, some 2)] := by decide

/-- **C7 (amended)**: when every extracted finisher has a null rank (no rank
field in the discovered schema) and every present chip time is positive and
below the 99999-second sentinel, the adapter's back-fill returns a
permutation of the input (up to the assigned ranks) that is sorted by chip
time ascending with missing times last, and assigns every finisher the dense
1-based overall rank equal to its position in that order.  (Outside the
sentinel range the sort key `chipTime || 99999` deviates from this, as the
counterexample shows; zero chip times are treated as missing.) -/
theorem c7_rank_backfill_by_chip_time (fs : List RRFinisher)
    (hnorank : ∀ f ∈ fs, f.rank = none)
    (hbound : ∀ f ∈ fs, 0 < f.chipTime.getD 1 ∧ f.chipTime.getD 1 < 99999) :
    ((rrSortRank fs).map (fun f => { f with rank := none })).Perm fs ∧
    (rrSortRank fs).Pairwise timeLe ∧
    (∀ i, i < fs.length →
      ∃ f, (rrSortRank fs)[i]? = some f ∧ f.rank = some ((i : Int) + 1)) := by
  haveI : IsTotal RRFinisher (fun a b => rrSortKey a ≤ rrSortKey b) :=
    ⟨fun a b => le_total _ _⟩
  haveI : IsTrans RRFinisher (fun a b => rrSortKey a ≤ rrSortKey b) :=
    ⟨fun _ _ _ hab hbc => le_trans hab hbc⟩
  have hperm : List.Perm (List.insertionSort (fun a b => rrSortKey a ≤ rrSortKey b) fs) fs :=
    List.perm_insertionSort _ fs
  have hrr : rrSortRank fs =
      (List.insertionSort (fun a b => rrSortKey a ≤ rrSortKey b) fs).enum.map
        (fun p => if rankFalsy p.2.rank then { p.2 with rank := some ((p.1 : Int) + 1) }
          else p.2) := rfl
  have hsortmem : ∀ f ∈ List.insertionSort (fun a b => rrSortKey a ≤ rrSortKey b) fs,
      f ∈ fs := fun f hf => hperm.subset hf
  have hsortedrank : ∀ f ∈ List.insertionSort (fun a b => rrSortKey a ≤ rrSortKey b) fs,
      f.rank = none := fun f hf => hnorank f (hsortmem f hf)
  have hstripid : ∀ f : RRFinisher, f.rank = none → ({ f with rank := none } : RRFinisher) = f := by
    intro f h
    cases f
    simp_all
  have hkey : ∀ f ∈ fs, ∀ x : Int, f.chipTime = some x →
      rrSortKey f = x ∧ 0 < x ∧ x < 99999 := by
    intro f hf x hx
    have := hbound f hf
    rw [hx] at this
    simp only [Option.getD_some] at this
    refine ⟨?_, this⟩
    unfold rrSortKey
    rw [hx]
    show (if x = 0 then (99999 : Int) else x) = x
    rw [if_neg (by omega)]
  have hkeynone : ∀ f : RRFinisher, f.chipTime = none → rrSortKey f = 99999 := by
    intro f hf
    unfold rrSortKey
    rw [hf]
  refine ⟨?_, ?_, ?_⟩
  · rw [hrr, List.map_map]
    have hfun : ∀ p ∈ (List.insertionSort (fun a b => rrSortKey a ≤ rrSortKey b) fs).enum,
        ((fun f => { f with rank := none }) ∘
          (fun p : Nat × RRFinisher =>
            if rankFalsy p.2.rank then { p.2 with rank := some ((p.1 : Int) + 1) }
            else p.2)) p = Prod.snd p := by
      intro p hp
      have h2 : p.2.rank = none := hsortedrank p.2 (List.snd_mem_of_mem_enum hp)
      have h3 : rankFalsy p.2.rank = true := by rw [h2]; rfl
      simp only [Function.comp_apply, h3, if_pos]
      exact hstripid p.2 h2
    rw [List.map_congr_left hfun, List.enum_map_snd]
    exact hperm
  · have hsort : (List.insertionSort (fun a b => rrSortKey a ≤ rrSortKey b) fs).Pairwise
        (fun a b => rrSortKey a ≤ rrSortKey b) := List.sorted_insertionSort _ fs
    have henum : ((List.insertionSort (fun a b => rrSortKey a ≤ rrSortKey b) fs).enum).Pairwise
        (fun p q : Nat × RRFinisher => rrSortKey p.2 ≤ rrSortKey q.2) := by
      have h := hsort
      rw [← List.enum_map_snd (List.insertionSort (fun a b => rrSortKey a ≤ rrSortKey b) fs)]
        at h
      exact (List.pairwise_map (f := Prod.snd)).mp h
    rw [hrr]
    apply (List.pairwise_map).mpr
    have hct : ∀ x : Nat × RRFinisher,
        ((fun p : Nat × RRFinisher =>
          if rankFalsy p.2.rank then { p.2 with rank := some ((p.1 : Int) + 1) }
          else p.2) x).chipTime = x.2.chipTime := by
      intro x
      dsimp only
      split <;> rfl
    refine henum.imp_of_mem ?_
    intro p q hp hq hpq
    have hpmem : p.2 ∈ fs := hsortmem p.2 (List.snd_mem_of_mem_enum hp)
    have hqmem : q.2 ∈ fs := hsortmem q.2 (List.snd_mem_of_mem_enum hq)
    cases hcp : p.2.chipTime with
    | none =>
      cases hcq : q.2.chipTime with
      | none => exact timeLe_none_right (by rw [hct, hcq])
      | some y =>
        exfalso
        have h1 := hkeynone p.2 hcp
        have h2 := (hkey q.2 hqmem y hcq).1
        have h3 := (hkey q.2 hqmem y hcq).2.2
        rw [h1, h2] at hpq
        omega
    | some x =>
      cases hcq : q.2.chipTime with
      | none => exact timeLe_none_right (by rw [hct, hcq])
      | some y =>
        have h1 := (hkey p.2 hpmem x hcp).1
        have h2 := (hkey q.2 hqmem y hcq).1
        rw [h1, h2] at hpq
        exact timeLe_some_some (by rw [hct, hcp]) (by rw [hct, hcq]) hpq
  · intro i hi
    have hlen : i < (List.insertionSort (fun a b => rrSortKey a ≤ rrSortKey b) fs).length := by
      rw [List.length_insertionSort]
      exact hi
    have hget : (List.insertionSort (fun a b => rrSortKey a ≤ rrSortKey b) fs)[i]? =
        some ((List.insertionSort (fun a b => rrSortKey a ≤ rrSortKey b) fs)[i]) :=
      List.getElem?_eq_getElem hlen
    refine ⟨(fun p : Nat × RRFinisher =>
        if rankFalsy p.2.rank then { p.2 with rank := some ((p.1 : Int) + 1) } else p.2)
        (i, (List.insertionSort (fun a b => rrSortKey a ≤ rrSortKey b) fs)[i]), ?_, ?_⟩
    · rw [hrr, List.getElem?_map, List.getElem?_enum, hget]
      rfl
    · have hr : ((List.insertionSort (fun a b => rrSortKey a ≤ rrSortKey b) fs)[i]).rank =
          none := hsortedrank _ (List.getElem_mem hlen)
      dsimp only
      rw [hr]
      simp [rankFalsy]

/-- Witness for C7 (amended): two timed records given in descending time
order come back ascending with ranks 1 and 2. -/
theorem c7_rank_backfill_by_chip_time_witness :
    ((rrSortRank [exRR2, exRR]).map (fun f => { f with rank := none })).Perm [exRR2, exRR] ∧
    (rrSortRank [exRR2, exRR]).Pairwise timeLe ∧
    (∀ i, i < ([exRR2, exRR] : List RRFinisher).length →
      ∃ f, (rrSortRank [exRR2, exRR])[i]? = some f ∧ f.rank = some ((i : Int) + 1)) :=
  c7_rank_backfill_by_chip_time [exRR2, exRR] (by decide) (by decide)

/-! ## The PDF-text section parser (`src/import-csilo-2025.js`) -/

/-- Word character for the JS `\\b` boundary: `[A-Za-z0-9_]`. -/
def isWordCh (c : Char) : Bool := isDigitCh c || isAlphaCh c || c = '_'

/-- `SKIP_RE = /^(CSILO Run|Results|Pl\\.\\s+Bib|\\d+\\s*$)/` -/
def skipMatch (l : Chars) : Bool :=
  List.isPrefixOf ("CSILO Run".data) l ||
  List.isPrefixOf ("Results".data) l ||
  (List.isPrefixOf ("Pl.".data) l &&
    (let r := l.drop 3
     !(r.takeWhile isWsCh).isEmpty && List.isPrefixOf ("Bib".data) (r.dropWhile isWsCh))) ||
  (let d := l.takeWhile isDigitCh
   !d.isEmpty && (l.drop d.length).all isWsCh)

/-- `RACE_RE = /^(Half Marathon|5K|Silla de ruedas)$/` (whole-line). -/
def raceMatch (l : Chars) : Bool :=
  l = "Half Marathon".data || l = "5K".data || l = "Silla de ruedas".data

/-- `OVERALL_RE = /^overall$/i` -/
def overallMatch (l : Chars) : Bool :=
  l.map Char.toLower = "overall".data

/-- `AG_STD_RE`'s age part `(\\d{1,2}[-+]\\d{0,2}|\\d{2}\\+)`, anchored to the end. -/
def ageRangeMatch (r : Chars) : Bool :=
  let d := r.takeWhile isDigitCh
  (decide (1 ≤ d.length) && decide (d.length ≤ 2) &&
    (match r.drop d.length with
     | c :: rest => (c = '-' || c = '+') && rest.all isDigitCh && decide (rest.length ≤ 2)
     | [] => false)) ||
  (decide (2 ≤ d.length) && decide (r.drop 2 = ['+']))

/-- `AG_STD_RE = /^(Female|Male)\\s+(\\d{1,2}[-+]\\d{0,2}|\\d{2}\\+)$/`: returns the
captured gender word. -/
def agStdMatch (l : Chars) : Option Chars :=
  let go : Chars → Chars → Option Chars := fun w r =>
    if (r.takeWhile isWsCh).isEmpty then none
    else if ageRangeMatch (r.dropWhile isWsCh) then some w else none
  if List.isPrefixOf ("Female".data) l then go ("Female".data) (l.drop 6)
  else if List.isPrefixOf ("Male".data) l then go ("Male".data) (l.drop 4)
  else none

/-- `AG_OPEN_RE = /^Open\\s+(F|M)$/i`: returns the captured letter in its
original case. -/
def agOpenMatch (l : Chars) : Option Char :=
  if List.isPrefixOf ("open".data) (l.map Char.toLower) then
    let r := l.drop 4
    if (r.takeWhile isWsCh).isEmpty then none
    else match r.dropWhile isWsCh with
      | [c] => if c.toLower = 'f' || c.toLower = 'm' then some c else none
      | _ => none
  else none

/-- Does `\\d{1,2}:\\d{2}` match at the head of `r`? -/
def timeHeadMatch (r : Chars) : Bool :=
  let d := r.takeWhile isDigitCh
  (decide (d.length = 1) || decide (d.length = 2)) &&
  (match r.drop d.length with
   | ':' :: c1 :: c2 :: _ => isDigitCh c1 && isDigitCh c2
   | _ => false)

/-- The scan for the lazy `(.*?)\\s+(\\d{1,2}:\\d{2}.*)$` tail of `ROW_RE`: the
shortest name prefix followed by a whitespace run whose end starts a time. -/
def rowSplitGo (acc : Chars) : Chars → Option (Chars × Chars)
  | [] => none
  | c :: rest =>
    if isWsCh c then
      let after := (c :: rest).dropWhile isWsCh
      if timeHeadMatch after then some (acc.reverse, after)
      else rowSplitGo (c :: acc) rest
    else rowSplitGo (c :: acc) rest

/-- The `\\s+(.*?)\\s+(\\d{1,2}:\\d{2}.*)$` tail of `ROW_RE` after the bib digits:
the leading whitespace run is consumed greedily first; only when no split with
a non-empty name exists does backtracking give up one space of the leading run
for an empty name (standard backtracking order of the regex). -/
def rowTail (r : Chars) : Option (Chars × Chars) :=
  let k := (r.takeWhile isWsCh).length
  if k = 0 then none
  else
    let p0 := r.drop k
    match rowSplitGo [] p0 with
    | some nt => some nt
    | none => if 2 ≤ k && timeHeadMatch p0 then some ([], p0) else none

/-- `ROW_RE.exec(line)`: rank, bib, raw name group, times group. -/
def rowMatch (l : Chars) : Option (Int × Chars × Chars × Chars) :=
  let d1 := l.takeWhile isDigitCh
  if d1.isEmpty then none
  else match l.drop d1.length with
    | '.' :: r1 =>
      if (r1.takeWhile isWsCh).isEmpty then none
      else
        let r2 := r1.dropWhile isWsCh
        let d2 := r2.takeWhile isDigitCh
        if d2.isEmpty then none
        else
          match rowTail (r2.drop d2.length) with
          | some (name, times) => some (((decVal d1 : Nat) : Int), d2, name, times)
          | none => none
    | _ => none

/-- One `TIME_TOKEN` attempt at the head of `r` (the `\\b` before is the
caller's duty): `\\d{1,2}:\\d{2}` then the optional `:ss` and `,cc` groups,
greedily with backtracking against the trailing `\\b`. -/
def timeTokAt (r : Chars) : Option (Chars × Chars) :=
  let d := r.takeWhile isDigitCh
  if decide (d.length = 1) || decide (d.length = 2) then
    match r.drop d.length with
    | ':' :: c1 :: c2 :: rest =>
      if isDigitCh c1 && isDigitCh c2 then
        let base := d ++ ':' :: [c1, c2]
        let bnd : Chars → Bool := fun s =>
          match s with
          | [] => true
          | c :: _ => !isWordCh c
        let ext1 : Option (Chars × Chars) :=
          match rest with
          | ':' :: e1 :: e2 :: rest2 =>
            if isDigitCh e1 && isDigitCh e2 then some ([':', e1, e2], rest2) else none
          | _ => none
        let ext2 : Chars → Option (Chars × Chars) := fun s =>
          match s with
          | ',' :: e1 :: e2 :: rest2 =>
            if isDigitCh e1 && isDigitCh e2 then some ([',', e1, e2], rest2) else none
          | _ => none
        match ext1 with
        | some (g1, rest1) =>
          (match ext2 rest1 with
           | some (g2, rest2) =>
             if bnd rest2 then some (base ++ g1 ++ g2, rest2)
             else if bnd rest1 then some (base ++ g1, rest1)
             else if bnd rest then
               match ext2 rest with
               | some (g2b, rest2b) =>
                 if bnd rest2b then some (base ++ g2b, rest2b) else some (base, rest)
               | none => some (base, rest)
             else none
           | none =>
             if bnd rest1 then some (base ++ g1, rest1)
             else
               match ext2 rest with
               | some (g2b, rest2b) =>
                 if bnd rest2b then some (base ++ g2b, rest2b)
                 else if bnd rest then some (base, rest) else none
               | none => if bnd rest then some (base, rest) else none)
        | none =>
          match ext2 rest with
          | some (g2, rest2) =>
            if bnd rest2 then some (base ++ g2, rest2)
            else if bnd rest then some (base, rest) else none
          | none => if bnd rest then some (base, rest) else none
      else none
    | _ => none
  else none

/-- `timesPart.match(TIME_TOKEN)`: the global left-to-right scan, tracking
whether the previous character was a word character (for the leading `\\b`). -/
def timeTokensGo : Nat → Chars → Bool → List Chars
  | 0, _, _ => []
  | _ + 1, [], _ => []
  | fuel + 1, c :: rest, prevWord =>
    if !prevWord then
      match timeTokAt (c :: rest) with
      | some (tok, after) => tok :: timeTokensGo fuel after true
      | none => timeTokensGo fuel rest (isWordCh c)
    else timeTokensGo fuel rest (isWordCh c)

def timeTokens (r : Chars) : List Chars := timeTokensGo r.length r false

/-- Group-1 length of `AG_INLINE_RE`'s first alternative age range, with the
trailing `\\s*$` folded in. -/
def rangeLen (a : Chars) : Option Nat :=
  let digits := (a.takeWhile isDigitCh).length
  let tryAlt1 : Nat → Option Nat := fun d1 =>
    if d1 ≤ digits then
      match a.drop d1 with
      | c :: rest =>
        if c = '-' || c = '+' then
          let dr := (rest.takeWhile isDigitCh).length
          let try2 : Nat → Option Nat := fun d2 =>
            if d2 ≤ dr && (rest.drop d2).all isWsCh then some (d1 + 1 + d2) else none
          try2 2 <|> try2 1 <|> try2 0
        else none
      | [] => none
    else none
  let alt2 : Option Nat :=
    if 2 ≤ digits then
      match a.drop 2 with
      | '+' :: rest => if rest.all isWsCh then some 3 else none
      | _ => none
    else none
  tryAlt1 2 <|> tryAlt1 1 <|> alt2

/-- Group-1 length of `AG_INLINE_RE` when one of its three alternatives
(each case-insensitive) matches at the start of `s` with only whitespace
after it. -/
def agInlineAlt (s : Chars) : Option Nat :=
  let low := s.map Char.toLower
  let altA : Option Nat :=
    (if List.isPrefixOf ("female".data) low then some 6
     else if List.isPrefixOf ("male".data) low then some 4
     else none).bind (fun g =>
      let r := s.drop g
      let w := (r.takeWhile isWsCh).length
      if w = 0 then none
      else (rangeLen (r.drop w)).map (fun n => g + w + n))
  let altB : Option Nat :=
    if List.isPrefixOf ("open".data) low then
      let r := s.drop 4
      let w := (r.takeWhile isWsCh).length
      if w = 0 then none
      else match r.drop w with
        | c :: rest =>
          if (c.toLower = 'f' || c.toLower = 'm') && rest.all isWsCh then some (4 + w + 1)
          else none
        | [] => none
    else none
  let altC : Option Nat :=
    if List.isPrefixOf ("overall".data) low && (s.drop 7).all isWsCh then some 7 else none
  altA <|> altB <|> altC

/-- `AG_INLINE_RE.exec(nameAndAG)`: the leftmost position whose whitespace run
is followed by a matching alternative reaching (up to whitespace) the end;
returns the part before the match and the captured group 1. -/
def agInlineGo (pre : Chars) : Chars → Option (Chars × Chars)
  | [] => none
  | c :: rest =>
    if isWsCh c then
      let run := (c :: rest).takeWhile isWsCh
      let after := (c :: rest).drop run.length
      match agInlineAlt after with
      | some n => some (pre.reverse, after.take n)
      | none => agInlineGo (c :: pre) rest
    else agInlineGo (c :: pre) rest

def agInline (s : Chars) : Option (Chars × Chars) := agInlineGo [] s

/-- The record stored in a race's `agegroup` map. -/
structure AgRec where
  bib : Chars
  name : Option Chars
  gender : Option Int
  ageGroup : Option Chars
  ageGroupRank : Int
  chipTimeS : Option Int
  deriving Repr, DecidableEq

/-- The three per-race maps of `parsePDF`, as insertion-ordered association
lists (the iteration order of a JS `Map`). -/
structure RaceMaps where
  overall : List (Chars × Int)
  gender : List (Chars × Int)
  agegroup : List (Chars × AgRec)
  deriving Repr, DecidableEq

structure Races where
  hm : RaceMaps
  fiveK : RaceMaps
  deriving Repr, DecidableEq

/-- JS `Map.get`. -/
def mapGet {β : Type} (k : Chars) (m : List (Chars × β)) : Option β :=
  (m.find? (fun p => decide (p.1 = k))).map (fun p => p.2)

/-- JS `Map.set`: replace in place when the key exists, else append. -/
def mapSet {β : Type} (k : Chars) (v : β) (m : List (Chars × β)) : List (Chars × β) :=
  if (m.find? (fun p => decide (p.1 = k))).isSome then
    m.map (fun p => if p.1 = k then (k, v) else p)
  else m ++ [(k, v)]

inductive RaceKey where
  | hm
  | fiveK
  deriving Repr, DecidableEq

inductive SectionType where
  | overall
  | gender
  | agegroup
  deriving Repr, DecidableEq

/-- The mutable state of `parsePDF`'s line loop. -/
structure PdfState where
  currentRace : Option RaceKey
  sectionType : Option SectionType
  gender : Option Int
  ageGroup : Option Chars
  races : Races
  deriving Repr, DecidableEq

def Races.get (rs : Races) : RaceKey → RaceMaps
  | .hm => rs.hm
  | .fiveK => rs.fiveK

def Races.set (rs : Races) : RaceKey → RaceMaps → Races
  | .hm, rd => { rs with hm := rd }
  | .fiveK, rd => { rs with fiveK := rd }

/-- One iteration of `parsePDF`'s `for (const rawLine of lines)` loop. -/
def parseLine (st : PdfState) (rawLine : Chars) : PdfState :=
  let line := trimChars rawLine
  if line = [] || skipMatch line then st
  else if raceMatch line then
    { st with currentRace := some (if line = "5K".data then RaceKey.fiveK else RaceKey.hm)
              sectionType := some SectionType.overall
              gender := none
              ageGroup := none }
  else if overallMatch line then
    { st with sectionType := some SectionType.agegroup
              gender := none
              ageGroup := some ("Overall".data) }
  else if line = "Female".data || line = "Male".data then
    { st with gender := some (if line = "Female".data then 2 else 1)
              ageGroup := none
              sectionType := some SectionType.gender }
  else match agStdMatch line with
  | some g =>
    { st with gender := some (if g = "Female".data then 2 else 1)
              ageGroup := some line
              sectionType := some SectionType.agegroup }
  | none =>
  match agOpenMatch line with
  | some c =>
    { st with gender := some (if c.toUpper = 'F' then 2 else 1)
              ageGroup := some ("Open ".data ++ [c.toUpper])
              sectionType := some SectionType.agegroup }
  | none =>
  match st.currentRace with
  | none => st
  | some rk =>
    match rowMatch line with
    | none => st
    | some (rank, bib, name0, timesPart) =>
      let times := timeTokens timesPart
      match times.getLast? with
      | none => st
      | some lastTime =>
        let chipTimeS := parseTime lastTime
        let nameAndAG0 := trimChars name0
        let inlineSplit := agInline nameAndAG0
        let inlineAG : Option Chars := inlineSplit.map (fun p => p.2)
        let nameAndAG := match inlineSplit with
          | some p => trimChars p.1
          | none => nameAndAG0
        let resolvedAG : Option Chars := match inlineAG with
          | some g => some g
          | none => st.ageGroup
        let name : Option Chars :=
          if nameAndAG = bib then none
          else if nameAndAG = [] then none else some nameAndAG
        let rd := st.races.get rk
        match st.sectionType with
        | some SectionType.overall =>
          { st with races := st.races.set rk { rd with overall := mapSet bib rank rd.overall } }
        | some SectionType.gender =>
          { st with races := st.races.set rk { rd with gender := mapSet bib rank rd.gender } }
        | some SectionType.agegroup =>
          if (mapGet bib rd.agegroup).isSome then st
          else
            let entry : AgRec :=
              { bib := bib, name := name, gender := st.gender, ageGroup := resolvedAG
                ageGroupRank := rank, chipTimeS := chipTimeS }
            { st with races :=
                st.races.set rk { rd with agegroup := mapSet bib entry rd.agegroup } }
        | none => st

/-- `parsePDF` of `src/import-csilo-2025.js`: split on newlines and fold the
line handler over an initially empty two-race state. -/
def parsePDF (text : Chars) : Races :=
  ((splitOnChar '\n' text).foldl parseLine
    { currentRace := none, sectionType := none, gender := none, ageGroup := none
      races := ⟨⟨[], [], []⟩, ⟨[], [], []⟩⟩ }).races

/-- The merged finisher record `buildFinishers` produces. -/
structure PdfFinisher where
  bib : Chars
  name : Option Chars
  gender : Option Int
  ageGroup : Option Chars
  ageGroupRank : Int
  chipTimeS : Option Int
  overallRank : Option Int
  genderRank : Option Int
  deriving Repr, DecidableEq

/-- `buildFinishers` of `src/import-csilo-2025.js`: every age-group record, in
map order, with the overall and gender ranks joined in by bib (`|| null`
collapses an absent or zero rank to null). -/
def buildFinishers (rd : RaceMaps) : List PdfFinisher :=
  rd.agegroup.map (fun p =>
    { bib := p.2.bib, name := p.2.name, gender := p.2.gender, ageGroup := p.2.ageGroup
      ageGroupRank := p.2.ageGroupRank, chipTimeS := p.2.chipTimeS
      overallRank := orNullInt (mapGet p.2.bib rd.overall)
      genderRank := orNullInt (mapGet p.2.bib rd.gender) })

/-- JS `x || null` on a nullable char-list-valued string. -/
def orNullChars (o : Option Chars) : Option String :=
  match o with
  | some s => if s = [] then none else some s.asString
  | none => none

/-- The `race_finishers` row `insertRace` of `src/import-csilo-2025.js` builds
for one merged PDF finisher (nine columns; `country_code` is never written). -/
def pdfRow (raceEventId : Nat) (f : PdfFinisher) : FinisherRow :=
  { race_event_id := raceEventId
    bib := orNullChars (some f.bib)
    name := orNullChars f.name
    gender := orNullInt f.gender
    age_group := orNullChars f.ageGroup
    overall_rank := orNullInt f.overallRank
    gender_rank := orNullInt f.genderRank
    age_group_rank := orNullInt (some f.ageGroupRank)
    chip_time_s := orNullInt f.chipTimeS
    country_code := none }

/-! ## RaceResult extraction (`extractFinishers` of `src/server/raceresult.js`) -/

/-- A JSON cell value as the extractor sees it. -/
inductive JVal where
  | null
  | str (s : Chars)
  | num (n : Int)
  deriving Repr, DecidableEq

def jvalFalsy : JVal → Bool
  | .null => true
  | .str s => s.isEmpty
  | .num n => n = 0

/-- JS `String(v || '')` on a cell. -/
def cellStr (v : JVal) : Chars :=
  if jvalFalsy v then []
  else match v with
    | .str s => s
    | .num n => intToChars n
    | .null => []

/-- JS `str.includes(pat)`: contiguous-substring test. -/
def containsSeq (pat : Chars) : Chars → Bool
  | [] => pat.isEmpty
  | c :: rest => List.isPrefixOf pat (c :: rest) || containsSeq pat rest

/-- The field indices `extractFinishers` looks up in `dataFields` (JS `-1`
is `none`): exact names for bib/name/age group, substring match for the
finish-time and rank columns. -/
structure FieldIdx where
  bib : Option Nat
  name : Option Nat
  ageGroup : Option Nat
  finish : Option Nat
  rank : Option Nat
  deriving Repr, DecidableEq

def fieldIdxs (dataFields : List Chars) : FieldIdx :=
  { bib := dataFields.findIdx? (fun f => f = "BIB".data)
    name := dataFields.findIdx? (fun f => f = "LASTNAME".data)
    ageGroup := dataFields.findIdx? (fun f => f = "AGEGROUP.NAME".data)
    finish := dataFields.findIdx? (fun f =>
      containsSeq ("Finish".data) f || containsSeq ("FINISH".data) f)
    rank := dataFields.findIdx? (fun f =>
      containsSeq ("AUTORANK".data) f || containsSeq ("Rank".data) f ||
      containsSeq ("rank".data) f) }

/-- `key.replace(/^#\\d+_/, '')`. -/
def stripHash (k : Chars) : Chars :=
  match k with
  | '#' :: rest =>
    let d := rest.takeWhile isDigitCh
    if d.isEmpty then k
    else match rest.drop d.length with
      | '_' :: tail => tail
      | _ => k
  | _ => k

/-- `parseTimeToSeconds` of `src/server/raceresult.js` on a raw cell: the
`typeof val !== 'string'` guard sends non-strings to null; strings go through
the shared time parse. -/
def parseTimeToSeconds (v : JVal) : Option Int :=
  match v with
  | .str s => parseTime s
  | _ => none

/-- `rank = rankRaw ? parseInt(rankRaw.replace(/\\D/g, '')) || null : null`. -/
def rrRankOfRaw (raw : Option Chars) : Option Int :=
  match raw with
  | none => none
  | some s =>
    if s = [] then none
    else
      let d := s.filter isDigitCh
      if d = [] then none
      else if decVal d = 0 then none
      else some ((decVal d : Nat) : Int)

/-- The gender inference from the sub-group label (note: any label containing
the letter `f` is taken as female, then any containing `m` as male). -/
def inferGender (sub : Chars) : Option Int :=
  let g := sub.map Char.toLower
  if containsSeq ("female".data) g || containsSeq ['f'] g then some 2
  else if containsSeq ("male".data) g || containsSeq ['m'] g then some 1
  else none

/-- One row of the nested structure: `null` when the row is the one-element
total-count sentinel or has no resolvable name (`if (!name) continue`);
otherwise the pushed finisher object. -/
def rrRowRecord (idx : FieldIdx) (contestName subGroupName : Chars) (row : List JVal) :
    Option RRFinisher :=
  if row.length = 1 then none
  else
    match idx.name with
    | none => none
    | some ni =>
      let s := trimChars (cellStr (row.getD ni JVal.null))
      if s = [] then none
      else some
        { bib := idx.bib.map (fun i => (trimChars (cellStr (row.getD i JVal.null))).asString)
          name := s.asString
          ageGroup := idx.ageGroup.map
            (fun i => (trimChars (cellStr (row.getD i JVal.null))).asString)
          chipTime := match idx.finish with
            | some i => parseTimeToSeconds (row.getD i JVal.null)
            | none => none
          rank := rrRankOfRaw (idx.rank.map (fun i => cellStr (row.getD i JVal.null)))
          gender := inferGender subGroupName
          contest := contestName.asString }

/-- The doubly nested list-data shape
`contest key ↦ sub-group key ↦ row arrays` (object iteration order). -/
abbrev RRData := List (Chars × List (Chars × List (List JVal)))

/-- `extractFinishers` of `src/server/raceresult.js`: walk contests and
sub-groups (skipping the unnamed bib-only sub-group), drop sentinel rows and
rows without a name. -/
def extractFinishers (data : RRData) (dataFields : List Chars) : List RRFinisher :=
  let idx := fieldIdxs dataFields
  (data.map (fun ck =>
    let contestName := stripHash ck.1
    ((ck.2.map (fun sk =>
      let subGroupName := stripHash sk.1
      if subGroupName = [] then []
      else sk.2.filterMap (rrRowRecord idx contestName subGroupName))).flatten))).flatten

/-! ## C4: the PDF parser merge on the three-section example -/

/-- The text block of the claim: one "Half Marathon" race with a bib-only
overall leaderboard (bibs 1–3, ranks 1–3; the name field repeats the bib), a
"Female" gender section ranking bib 2 first, and the age-group section
"Female 30-34" carrying bib 2's name and time. -/
def ex4Text : Chars :=
  ("Half Marathon" ++ "\n" ++
   "1. 1 1 1:30:00" ++ "\n" ++
   "2. 2 2 1:45:00" ++ "\n" ++
   "3. 3 3 1:50:00" ++ "\n" ++
   "Female" ++ "\n" ++
   "1. 2 2 1:45:00" ++ "\n" ++
   "Female 30-34" ++ "\n" ++
   "1. 2 Jane Doe 1:45:00").data

/-- **C4**: on the three-section example the merged Half-Marathon output is a
single record for bib 2 with `overallRank = 2`, `genderRank = 1`,
`ageGroupRank = 1`, `chipTimeSeconds = 6300`, `ageGroup = "Female 30-34"` and
`name = "Jane Doe"`. -/
theorem c4_pdf_parser_merges_three_sections :
    buildFinishers (parsePDF ex4Text).hm =
      [{ bib := "2".data
         name := some ("Jane Doe".data)
         gender := some 2
         ageGroup := some ("Female 30-34".data)
         ageGroupRank := 1
         chipTimeS := some 6300
         overallRank := some 2
         genderRank := some 1 }] := by decide

/-! ## C5: discarding records with no resolvable name -/

/-- A text block with a bib-only row inside the named "overall" sub-section
(which `parsePDF` treats as an age-group section labelled `Overall`). -/
def ex5Text : Chars :=
  ("Half Marathon" ++ "\n" ++ "overall" ++ "\n" ++ "1. 5 5 1:20:00").data

/-- **C5 counterexample**: the PDF path does *not* discard records whose
resolvable name is absent — the bib-only row (name field equal to the bib)
stays in `buildFinishers`' final record set with a null name, and the
`insertRace` row built from it persists `name = null`. -/
theorem c5_pdf_bib_only_row_persisted_counterexample :
    (buildFinishers (parsePDF ex5Text).hm).map (fun f => (f.bib, f.name)) =
      [("5".data, none)] ∧
    ((buildFinishers (parsePDF ex5Text).hm).map (fun f => (pdfRow 1 f).name)) = [none] := by
  exact ⟨by decide, by decide⟩

/-- **C5 (amended)**: only the RaceResult adapter discards finisher records
with no resolvable display name — every record `extractFinishers` emits has a
non-empty name, for all inputs.  The PDF parser instead keeps bib-only
records (name field equal to the bib) with a null name when no other section
supplies one, and `insertRace` persists them with `name = null`; the
Sporthive insert likewise persists records whose name is absent, with
`name = null`. -/
theorem c5_only_raceresult_discards_nameless :
    (∀ (data : RRData) (dataFields : List Chars),
      ∀ f ∈ extractFinishers data dataFields, f.name ≠ "") ∧
    ((buildFinishers (parsePDF ex5Text).hm).map (fun f => (pdfRow 1 f).name) = [none]) ∧
    (∀ (i : Nat) (g : SpFinisher), g.name = none → (spRow i g).name = none) := by
  refine ⟨?_, by decide, ?_⟩
  · intro data dataFields f hf
    unfold extractFinishers at hf
    rw [List.mem_flatten] at hf
    obtain ⟨outer, houter, hf⟩ := hf
    rw [List.mem_map] at houter
    obtain ⟨ck, _, hck⟩ := houter
    subst hck
    rw [List.mem_flatten] at hf
    obtain ⟨inner, hinner, hf⟩ := hf
    rw [List.mem_map] at hinner
    obtain ⟨sk, _, hsk⟩ := hinner
    subst hsk
    by_cases hempty : stripHash sk.1 = []
    · rw [if_pos hempty] at hf
      simp at hf
    · rw [if_neg hempty] at hf
      rw [List.mem_filterMap] at hf
      obtain ⟨row, _, hrow⟩ := hf
      unfold rrRowRecord at hrow
      dsimp only at hrow
      split at hrow
      · cases hrow
      · revert hrow
        cases hidx : (fieldIdxs dataFields).name with
        | none => intro hrow; cases hrow
        | some ni =>
          intro hrow
          dsimp only at hrow
          by_cases hs : trimChars (cellStr (row.getD ni JVal.null)) = []
          · rw [if_pos hs] at hrow
            cases hrow
          · rw [if_neg hs] at hrow
            have hfeq := Option.some.inj hrow
            rw [← hfeq]
            intro hcontra
            exact hs (by
              have := congrArg String.data hcontra
              simpa using this)
  · intro i g hg
    unfold spRow orNullStr
    rw [hg]

/-- A one-contest, one-sub-group RaceResult payload with one data row and a
total-count sentinel row, for the C5 witness. -/
def exRRData : RRData :=
  [("#1_10K".data,
    [("#1_Female".data,
      [[JVal.str ("101".data), JVal.str ("Brown".data)], [JVal.num 25]])])]

def exRRFields : List Chars := ["BIB".data, "LASTNAME".data]

/-- The record the extraction of `exRRData` produces. -/
def exRRBrown : RRFinisher :=
  { bib := some "101", name := "Brown", ageGroup := none, chipTime := none
    rank := none, gender := some 2, contest := "10K" }

/-- Witness for C5 (amended): the extracted record's name is non-empty, and a
Sporthive record without a name is persisted with a null name rather than
discarded. -/
theorem c5_only_raceresult_discards_nameless_witness :
    exRRBrown.name ≠ "" ∧ (spRow 0 { exSp1 with name := none }).name = none :=
  ⟨c5_only_raceresult_discards_nameless.1 exRRData exRRFields exRRBrown (by decide),
   c5_only_raceresult_discards_nameless.2.2 0 { exSp1 with name := none } rfl⟩

end StravaViz
